import Mathlib

/-!
Verification of the gdb_numpy dereferencing engine (`gdb_numpy.py` / `deref.py`).

The engine inspects a gdb value whose static type is a composite of pointers,
fixed-size C arrays and `std::vector` containers over a scalar numeric element,
and flattens it into a dense multi-dimensional buffer (`to_array`).

We model gdb values as trees whose pointer/array nodes carry a total child
function (gdb can index a pointer at any offset: it reads target memory), a
type-name string (gdb's `str(val.type.strip_typedefs().unqualified())`), and
vectors carry their `_M_start` memory together with the runtime length
`_M_finish - _M_start`.  The three regular expressions of `deref.py` are
modelled by executable string functions, the `while` loops of
`_get_deref_funcs` by fuel-indexed recursion (a completed composition is a
`.ok` result), and Python exceptions by an error type carrying the literal
messages of the source.  numpy's buffer is a shape plus a cell function; the
ScalarCaster (`_type_list[dtype](val)`, an external collaborator in the spec)
is modelled as the identity on the stored integer of a scalar node.
-/

/-- Model of a gdb.Value: scalar leaf, pointer, fixed-size array, or a
`std::vector` (with its `_M_start` memory and runtime length).  Pointer and
array children are total functions: gdb lets you index any offset. -/
inductive GVal where
  | scalar (ty : String) (v : Int)
  | ptr (ty : String) (target : Nat → GVal)
  | fixedArr (ty : String) (elems : Nat → GVal)
  | vec (ty : String) (mem : Nat → GVal) (len : Nat)

/-- `_get_type`: the normalized type-name string of a value. -/
def typeOf : GVal → String
  | .scalar ty _ => ty
  | .ptr ty _ => ty
  | .fixedArr ty _ => ty
  | .vec ty _ _ => ty

/-- `val[i]` in gdb python: integer indexing works on pointers and arrays,
and raises on scalars and class types. -/
def indexVal : GVal → Nat → Option GVal
  | .ptr _ t, i => some (t i)
  | .fixedArr _ e, i => some (e i)
  | _, _ => none

/-- `val['_M_impl']['_M_start'][i]`: element `i` of a vector's storage. -/
def vecElem : GVal → Nat → Option GVal
  | .vec _ mem _, i => some (mem i)
  | _, _ => none

/-! ### The regular expressions of `deref.py`

`DeRefPtr.pattern  = re.compile('\*$|\*\)(?:\[\d*\])+$')`
`DeRefArr.pattern  = re.compile('(?:\[\d*\])+$')`
`DeRefVec.pattern  = re.compile('^(std::vector)')`
and the check `re.search('(?:\[\])+', arr_type)` inside `DeRefArr._update`.

A trailing run of bracket groups is parsed from the reversed character list:
`stripGroupRev` strips one `[digits]` group, `trailingGroupsRev` strips the
maximal run (re.search finds the leftmost start from which groups reach the
end of the string, i.e. exactly the maximal trailing run). -/

/-- Strip one bracketed digit group from a reversed character list:
`']' :: digits.reverse ++ '[' :: rest ↦ (digits, rest)`. -/
def stripGroupRev (l : List Char) : Option (List Char × List Char) :=
  match l with
  | c :: rest =>
    if c = ']' then
      match rest.dropWhile Char.isDigit with
      | c2 :: rest2 =>
        if c2 = '[' then some ((rest.takeWhile Char.isDigit).reverse, rest2) else none
      | [] => none
    else none
  | [] => none

theorem dropWhileLenLe (p : Char → Bool) :
    ∀ l : List Char, (List.dropWhile p l).length ≤ l.length := by
  intro l
  induction l with
  | nil => simp
  | cons c t ih =>
    rw [List.dropWhile_cons]
    split
    · exact Nat.le_trans ih (Nat.le_succ _)
    · simp

theorem stripGroupRev_length {l : List Char} {g r : List Char}
    (h : stripGroupRev l = some (g, r)) : r.length < l.length := by
  match l with
  | [] => simp [stripGroupRev] at h
  | c :: rest =>
    simp only [stripGroupRev] at h
    split at h
    · split at h
      next c2 rest2 hdw =>
        split at h
        · simp only [Option.some.injEq, Prod.mk.injEq] at h
          obtain ⟨-, h2⟩ := h
          subst h2
          have h1 : (List.dropWhile Char.isDigit rest).length ≤ rest.length :=
            dropWhileLenLe _ rest
          rw [hdw] at h1
          simp only [List.length_cons] at h1 ⊢
          omega
        · exact absurd h (by simp)
      next hdw => exact absurd h (by simp)
    · exact absurd h (by simp)

/-- Fuel-indexed stripping of trailing bracket groups; each strip shortens
the list, so fuel equal to the list length always suffices. -/
def tgrAux : Nat → List Char → List (List Char) × List Char
  | 0, l => ([], l)
  | Nat.succ n, l =>
    match stripGroupRev l with
    | some (g, r) =>
      let p := tgrAux n r
      (g :: p.1, p.2)
    | none => ([], l)

/-- The maximal trailing run of bracket groups of a reversed character list
(innermost group first), together with the remaining reversed prefix. -/
def trailingGroupsRev (l : List Char) : List (List Char) × List Char :=
  tgrAux l.length l

theorem tgrAux_stable : ∀ (n : Nat) (l : List Char), l.length ≤ n →
    tgrAux n l = tgrAux l.length l := by
  intro n
  induction n using Nat.strong_induction_on with
  | _ n ih =>
    cases n with
    | zero =>
      intro l hl
      have h0 : l.length = 0 := Nat.le_zero.mp hl
      rw [h0]
    | succ n =>
      intro l hl
      cases hs : stripGroupRev l with
      | none =>
        cases hlen : l.length with
        | zero => simp [tgrAux, hs]
        | succ k => simp [tgrAux, hs]
      | some gr =>
        obtain ⟨g, r⟩ := gr
        have hr : r.length < l.length := stripGroupRev_length hs
        cases hlen : l.length with
        | zero => omega
        | succ k =>
          simp only [tgrAux, hs]
          rw [ih n (by omega) r (by omega), ih k (by omega) r (by omega)]

theorem trailingGroupsRev_of_none {l : List Char} (h : stripGroupRev l = none) :
    trailingGroupsRev l = ([], l) := by
  unfold trailingGroupsRev
  match hlen : l.length with
  | 0 => rfl
  | Nat.succ k => simp [tgrAux, h]

theorem trailingGroupsRev_of_some {l g r} (h : stripGroupRev l = some (g, r)) :
    trailingGroupsRev l =
      (g :: (trailingGroupsRev r).1, (trailingGroupsRev r).2) := by
  unfold trailingGroupsRev
  have hr : r.length < l.length := stripGroupRev_length h
  match hlen : l.length with
  | 0 => omega
  | Nat.succ k =>
    simp only [tgrAux, h]
    rw [tgrAux_stable k r (by omega)]

/-- Does the type name end in a bare `*` (first alternative of
`DeRefPtr.pattern`)? -/
def endsWithStar (s : String) : Bool :=
  match s.data.reverse with
  | '*' :: _ => true
  | _ => false

/-- `DeRefPtr.pattern.search`: ends in `*`, or in `*)` followed by one or
more bracket groups. -/
def ptrPattern (s : String) : Bool :=
  endsWithStar s ||
    (!(trailingGroupsRev s.data.reverse).1.isEmpty &&
      match (trailingGroupsRev s.data.reverse).2 with
      | ')' :: '*' :: _ => true
      | _ => false)

/-- `DeRefArr.pattern.search`: ends in one or more bracket groups. -/
def arrPattern (s : String) : Bool :=
  !(trailingGroupsRev s.data.reverse).1.isEmpty

/-- The characters of `std::vector`. -/
def stdVectorChars : List Char :=
  ['s', 't', 'd', ':', ':', 'v', 'e', 'c', 't', 'o', 'r']

/-- `DeRefVec.pattern.search`: the type name begins with `std::vector`. -/
def vecPattern (s : String) : Bool :=
  stdVectorChars.isPrefixOf s.data

/-- Head of a character list is `]`. -/
def headIsRBrack (l : List Char) : Bool :=
  match l with
  | c :: _ => decide (c = ']')
  | [] => false

/-- `re.search('(?:\[\])+', s)`: the string contains `[]` as a substring. -/
def hasEmptyGroup : List Char → Bool
  | [] => false
  | c :: rest => (decide (c = '[') && headIsRBrack rest) || hasEmptyGroup rest

/-- Python `int(...)` on a string of decimal digits. -/
def digitsToNat (l : List Char) : Nat :=
  l.foldl (fun n c => 10 * n + (c.toNat - 48)) 0

/-! ### Errors: the Python exceptions raised by the engine, with the literal
messages of the source. -/

/-- Message of the `ValueError` raised by `DeRefPtr.__init__` when `shape`
is `None`. -/
def shapeMustBeSpecifiedMsg : String :=
  "Array shape must be specified for pointer type."

/-- Message of the `IndexError` raised by `DeRefBase._get_range_from_shape`
when the shape tuple has too few entries. -/
def insufficientBoundsMsg : String :=
  "Insufficient number of bounds. A bound is needed for each dimension corresponding to a * or []."

/-- Message of the `gdb.error` raised by `DeRefArr._update` on an empty
bracketed dimension. -/
def missingDimsMsg : String :=
  "Missing array dimensions. All array dimensions must be declared as const. "

/-- The exceptions the engine can raise.  `typeError` is Python's `TypeError`
(`None + int`), `keyError` the `KeyError` of `_type_list[dtype]`,
`accessError` a gdb-level access failure (indexing a value whose structure
does not support it), `resolutionError` a failing `gdb.parse_and_eval`, and
`fuelExhausted` marks an incomplete run of the fuel-indexed loop. -/
inductive GErr where
  | valueError (msg : String)
  | indexError (msg : String)
  | gdbError (msg : String)
  | typeError
  | keyError (ty : String)
  | accessError
  | resolutionError
  | fuelExhausted
deriving DecidableEq, Repr

/-! ### The three layer dereferencers -/

/-- What constructing one `DeRef*` instance produces: the post-discovery
value (`self.val`), the dimension bounds this layer owns (`self.bounds`),
and the updated shape cursor (`self.shape_ind`). -/
structure LayerOut where
  val : GVal
  bounds : List Nat
  shapeInd : Option Nat

/-- `DeRefBase._get_range_from_shape`: claim `argNo` entries of the shape
tuple at the cursor.  A `None` cursor (or a `None` shape reached here) is
Python's `TypeError`; too few entries is the `IndexError`. -/
def getRangeFromShape (shapeInd : Option Nat) (shape : Option (List Nat))
    (argNo : Nat) : Except GErr (List Nat × Option Nat) :=
  match shapeInd with
  | none => .error .typeError
  | some si =>
    match shape with
    | none => .error .typeError
    | some sh =>
      if si + argNo > sh.length then .error (.indexError insufficientBoundsMsg)
      else .ok ((sh.drop si).take argNo, some (si + argNo))

/-- `DeRefPtr.__init__`: reject an absent shape, then `_update` performs the
discovery dereference at index 0 and claims one shape entry. -/
def mkDeRefPtr (val : GVal) (shapeInd : Option Nat) (shape : Option (List Nat)) :
    Except GErr LayerOut :=
  match shape with
  | none => .error (.valueError shapeMustBeSpecifiedMsg)
  | some _ =>
    match indexVal val 0 with
    | none => .error .accessError
    | some v =>
      match getRangeFromShape shapeInd shape 1 with
      | .error e => .error e
      | .ok (bounds, si) => .ok ⟨v, bounds, si⟩

/-- `DeRefArr.__init__` / `_update`: reject an empty bracket group anywhere
in the type name, read the first trailing bracket group as the bound, then
perform the discovery dereference at index 0.  The shape cursor is untouched. -/
def mkDeRefArr (val : GVal) (shapeInd : Option Nat) : Except GErr LayerOut :=
  let ty := typeOf val
  if hasEmptyGroup ty.data then .error (.gdbError missingDimsMsg)
  else
    match (trailingGroupsRev ty.data.reverse).1.reverse with
    | [] => .error .accessError
    | g :: _ =>
      match indexVal val 0 with
      | none => .error .accessError
      | some v => .ok ⟨v, [digitsToNat g], shapeInd⟩

/-- `DeRefVec.__init__` / `_update`: the discovery dereference reads
`_M_start[0]`, and the bound is `_M_finish - _M_start`. -/
def mkDeRefVec (val : GVal) (shapeInd : Option Nat) : Except GErr LayerOut :=
  match val with
  | .vec _ mem len => .ok ⟨mem 0, [len], shapeInd⟩
  | _ => .error .accessError

/-! ### The composition driver (`_get_deref_funcs` / `_deref`) -/

/-- Which class's `deref` method was appended to `deref_func`.  The methods
read no instance state, so the step is determined by this tag. -/
inductive StepKind where
  | ptrStep
  | arrStep
  | vecStep
deriving DecidableEq, Repr

/-- The stored `deref` methods: `DeRefPtr.deref` and `DeRefArr.deref` are
`val[indices[0]]`, `DeRefVec.deref` is `val['_M_impl']['_M_start'][indices[0]]`. -/
def applyStep : StepKind → GVal → List Nat → Option GVal
  | .ptrStep, v, i :: _ => indexVal v i
  | .arrStep, v, i :: _ => indexVal v i
  | .vecStep, v, i :: _ => vecElem v i
  | _, _, [] => none

/-- The mutable state threaded through `_get_deref_funcs`: the current value,
the accumulated `deref_func` list, `bounds`, `arg_no`, and the shape cursor. -/
structure DS where
  val : GVal
  funcs : List StepKind
  bounds : List Nat
  argNo : List Nat
  shapeInd : Option Nat

/-- The bookkeeping `_deref` does after constructing a dereferencer:
append the step, extend the bounds, record `len(bounds)` as the arity,
advance the value and cursor. -/
def pushLayer (st : DS) (k : StepKind) (lo : LayerOut) : DS :=
  { val := lo.val
    funcs := st.funcs ++ [k]
    bounds := st.bounds ++ lo.bounds
    argNo := st.argNo ++ [lo.bounds.length]
    shapeInd := lo.shapeInd }

/-- First iteration of the `for` loop of `_deref(_ptr_list, ...)`:
try `DeRefPtr` on the current type. -/
def derefPtrStep (st : DS) (shape : Option (List Nat)) : Except GErr DS :=
  if ptrPattern (typeOf st.val) then
    match mkDeRefPtr st.val st.shapeInd shape with
    | .error e => .error e
    | .ok lo => .ok (pushLayer st .ptrStep lo)
  else .ok st

/-- Second iteration of the `for` loop of `_deref(_ptr_list, ...)`:
try `DeRefArr` on the (possibly already advanced) type. -/
def derefArrStep (st : DS) : Except GErr DS :=
  if arrPattern (typeOf st.val) then
    match mkDeRefArr st.val st.shapeInd with
    | .error e => .error e
    | .ok lo => .ok (pushLayer st .arrStep lo)
  else .ok st

/-- `_deref(_ptr_list, ...)`: `DeRefPtr` then `DeRefArr`, the second pattern
tested against the type refreshed after the first. -/
def derefPtrList (st : DS) (shape : Option (List Nat)) : Except GErr DS :=
  match derefPtrStep st shape with
  | .error e => .error e
  | .ok st' => derefArrStep st'

/-- `_deref(_container_list, ...)`: try `DeRefVec`. -/
def derefContainerList (st : DS) : Except GErr DS :=
  if vecPattern (typeOf st.val) then
    match mkDeRefVec st.val st.shapeInd with
    | .error e => .error e
    | .ok lo => .ok (pushLayer st .vecStep lo)
  else .ok st

/-- The nested `while` loops of `_get_deref_funcs`.  The inner `while` body
runs exactly once per outer iteration (it sets `arr_type = old_type` before
`_deref` and `_deref` does not change them), so each outer iteration is one
pointer/array pass followed by one container pass; the loop stops when the
type name did not change across a full iteration.  The recursion is indexed
by fuel; the Python loop terminates because every fired layer moves to a
strict subvalue. -/
def gdfLoop : Nat → DS → Option (List Nat) → Except GErr DS
  | 0, _, _ => .error .fuelExhausted
  | Nat.succ fuel, st, shape =>
    let oldTy := typeOf st.val
    match derefPtrList st shape with
    | .error e => .error e
    | .ok st1 =>
      match derefContainerList st1 with
      | .error e => .error e
      | .ok st2 =>
        if typeOf st2.val = oldTy then .ok st2
        else gdfLoop fuel st2 shape

/-- `shape_ind = 0 if shape else None`: only a truthy (present and
non-empty) shape tuple initializes the cursor. -/
def initShapeInd (shape : Option (List Nat)) : Option Nat :=
  match shape with
  | some sh => if sh.isEmpty then none else some 0
  | none => none

/-- The result of `_get_deref_funcs`: `deref_func`, `arg_no`, `bounds`, the
terminal type name, and whether the surplus-shape notice was printed. -/
structure CompResult where
  funcs : List StepKind
  argNo : List Nat
  bounds : List Nat
  dtype : String
  surplusNotice : Bool
deriving DecidableEq, Repr

/-- The post-loop step of `_get_deref_funcs`:
`if shape_ind: if shape_ind != len(shape): print(notice)` — the notice
fires only for a truthy (non-zero) final cursor that differs from the
hint length (`len(None)` would be Python's `TypeError`). -/
def finishComp (st : DS) (shape : Option (List Nat)) : Except GErr CompResult :=
  match st.shapeInd with
  | none => .ok ⟨st.funcs, st.argNo, st.bounds, typeOf st.val, false⟩
  | some si =>
    if si = 0 then .ok ⟨st.funcs, st.argNo, st.bounds, typeOf st.val, false⟩
    else
      match shape with
      | none => .error .typeError
      | some sh =>
        .ok ⟨st.funcs, st.argNo, st.bounds, typeOf st.val, decide (si ≠ sh.length)⟩

/-- `_get_deref_funcs`: run the loop from a fresh state, then report any
surplus shape entries. -/
def getDerefFuncs (fuel : Nat) (val : GVal) (shape : Option (List Nat)) :
    Except GErr CompResult :=
  match gdfLoop fuel ⟨val, [], [], [], initShapeInd shape⟩ shape with
  | .error e => .error e
  | .ok st => finishComp st shape

/-! ### The top-level enumeration (`to_array`) -/

/-- The per-cell replay loop body of `to_array`: apply each recorded step to
the next `arg_n` entries of the index tuple (`zip` stops at the shorter
list, slices are `index[start_ind:end_ind]`). -/
def chainApply : List StepKind → List Nat → List Nat → GVal → Option GVal
  | [], _, _, v => some v
  | _ :: _, [], _, v => some v
  | f :: fs, a :: as', ix, v =>
    match applyStep f v (ix.take a) with
    | some w => chainApply fs as' (ix.drop a) w
    | none => none

/-- `itertools.product(*[range(b) for b in bounds])` in row-major order. -/
def prodIndices : List Nat → List (List Nat)
  | [] => [[]]
  | b :: bs => (List.range b).flatMap fun i => (prodIndices bs).map fun ix => i :: ix

/-- The ScalarCaster `_type_list[dtype](val)` (an external collaborator in
the spec): modelled as the identity on the integer stored in a scalar node;
converting a non-scalar value raises. -/
def castScalar : GVal → Except GErr Int
  | .scalar _ x => .ok x
  | _ => .error .accessError

/-- The numpy output buffer: a shape, a dtype name, and the cell contents. -/
structure NDBuffer where
  shape : List Nat
  dtype : String
  data : List Nat → Int

/-- The `for index in indices` loop of `to_array`: re-resolve the variable,
replay the chain, cast, and write the cell. -/
def fillLoop (env : String → Option GVal) (var : String) (funcs : List StepKind)
    (argNo : List Nat) : List (List Nat) → (List Nat → Int) →
    Except GErr (List Nat → Int)
  | [], data => .ok data
  | ix :: rest, data =>
    match env var with
    | none => .error .resolutionError
    | some v =>
      match chainApply funcs argNo ix v with
      | none => .error .accessError
      | some w =>
        match castScalar w with
        | .error e => .error e
        | .ok x =>
          fillLoop env var funcs argNo rest fun ix' => if ix' = ix then x else data ix'

/-- `to_array(var, shape)`: resolve the variable, run the composition
driver, look the terminal dtype up in `_type_list` (a `KeyError` here
surfaces before `np.zeros` allocates anything), then fill every cell of
the zero-initialized buffer. -/
def typeList : List String :=
  ["unsigned char", "unsigned int", "char", "short", "int", "float", "double"]

def toArray (fuel : Nat) (env : String → Option GVal) (var : String)
    (shape : Option (List Nat)) : Except GErr NDBuffer :=
  match env var with
  | none => .error .resolutionError
  | some val =>
    match getDerefFuncs fuel val shape with
    | .error e => .error e
    | .ok res =>
      if res.dtype ∈ typeList then
        match fillLoop env var res.funcs res.argNo (prodIndices res.bounds) (fun _ => 0) with
        | .error e => .error e
        | .ok data => .ok ⟨res.bounds, res.dtype, data⟩
      else .error (.keyError res.dtype)

/-! ### Computation lemmas for the pattern functions -/

theorem takeWhileAppendAll {p : Char → Bool} :
    ∀ (l r : List Char), (∀ c ∈ l, p c = true) →
      List.takeWhile p (l ++ r) = l ++ List.takeWhile p r := by
  intro l
  induction l with
  | nil => intro r _; simp
  | cons c t ih =>
    intro r h
    have hc : p c = true := h c (by simp)
    simp only [List.cons_append, List.takeWhile_cons_of_pos hc]
    rw [ih r fun d hd => h d (by simp [hd])]

theorem dropWhileAppendAll {p : Char → Bool} :
    ∀ (l r : List Char), (∀ c ∈ l, p c = true) →
      List.dropWhile p (l ++ r) = List.dropWhile p r := by
  intro l
  induction l with
  | nil => intro r _; simp
  | cons c t ih =>
    intro r h
    have hc : p c = true := h c (by simp)
    simp only [List.cons_append, List.dropWhile_cons_of_pos hc]
    exact ih r fun d hd => h d (by simp [hd])

theorem stripGroupRev_group (d pre : List Char) (hd : ∀ c ∈ d, c.isDigit = true) :
    stripGroupRev (']' :: (d.reverse ++ '[' :: pre)) = some (d, pre) := by
  have hrev : ∀ c ∈ d.reverse, Char.isDigit c = true := by
    intro c hc
    exact hd c (List.mem_reverse.mp hc)
  simp only [stripGroupRev, if_pos rfl]
  rw [dropWhileAppendAll d.reverse ('[' :: pre) hrev,
    List.dropWhile_cons_of_neg (by decide)]
  rw [takeWhileAppendAll d.reverse ('[' :: pre) hrev,
    List.takeWhile_cons_of_neg (by decide)]
  simp

theorem stripGroupRev_of_head_ne : ∀ {l : List Char},
    l.head? ≠ some ']' → stripGroupRev l = none := by
  intro l h
  match l with
  | [] => rfl
  | c :: t =>
    have hc : c ≠ ']' := by
      intro hc
      exact h (by simp [hc])
    simp [stripGroupRev, hc]

theorem revOneGroup (a d : List Char) :
    (a ++ ('[' :: (d ++ [']']))).reverse = ']' :: (d.reverse ++ '[' :: a.reverse) := by
  simp [List.reverse_append]

theorem revTwoGroups (a d1 d2 : List Char) :
    (a ++ ('[' :: (d1 ++ (']' :: ('[' :: (d2 ++ [']'])))))).reverse =
      ']' :: (d2.reverse ++ '[' :: (']' :: (d1.reverse ++ '[' :: a.reverse))) := by
  simp [List.reverse_append]

theorem tgrOneGroup (a d : List Char) (hd : ∀ c ∈ d, c.isDigit = true)
    (ha : a.reverse.head? ≠ some ']') :
    trailingGroupsRev ((a ++ ('[' :: (d ++ [']']))).reverse) = ([d], a.reverse) := by
  rw [revOneGroup,
    trailingGroupsRev_of_some (stripGroupRev_group d a.reverse hd),
    trailingGroupsRev_of_none (stripGroupRev_of_head_ne ha)]

theorem tgrTwoGroups (a d1 d2 : List Char) (h1 : ∀ c ∈ d1, c.isDigit = true)
    (h2 : ∀ c ∈ d2, c.isDigit = true) (ha : a.reverse.head? ≠ some ']') :
    trailingGroupsRev ((a ++ ('[' :: (d1 ++ (']' :: ('[' :: (d2 ++ [']'])))))).reverse) =
      ([d2, d1], a.reverse) := by
  rw [revTwoGroups,
    trailingGroupsRev_of_some (stripGroupRev_group d2 _ h2),
    trailingGroupsRev_of_some (stripGroupRev_group d1 _ h1),
    trailingGroupsRev_of_none (stripGroupRev_of_head_ne ha)]

theorem headIsRBrack_of_ne {c : Char} (h : c ≠ ']') (l : List Char) :
    headIsRBrack (c :: l) = false := by
  simp [headIsRBrack, h]

theorem digit_ne_rb {c : Char} (h : c.isDigit = true) : c ≠ ']' := by
  intro hc
  subst hc
  simp [Char.isDigit] at h

theorem digit_ne_lb {c : Char} (h : c.isDigit = true) : c ≠ '[' := by
  intro hc
  subst hc
  simp [Char.isDigit] at h

theorem hasEmptyGroup_cons (c : Char) (l : List Char) :
    hasEmptyGroup (c :: l) =
      ((decide (c = '[') && headIsRBrack l) || hasEmptyGroup l) := rfl

theorem hasEmptyGroupAppendNoLB :
    ∀ (l r : List Char), (∀ c ∈ l, c ≠ '[') →
      hasEmptyGroup (l ++ r) = hasEmptyGroup r := by
  intro l
  induction l with
  | nil => intro r _; simp
  | cons c t ih =>
    intro r h
    have hc : c ≠ '[' := h c (by simp)
    have hsplit : (c :: t) ++ r = c :: (t ++ r) := by simp
    rw [hsplit, hasEmptyGroup_cons, ih r fun d hd => h d (by simp [hd])]
    simp [hc]

theorem hasEmptyGroupGroup (d r : List Char) (hd : ∀ c ∈ d, c.isDigit = true)
    (hne : d ≠ []) (hr : hasEmptyGroup r = false) :
    hasEmptyGroup ('[' :: (d ++ r)) = false := by
  match d with
  | [] => exact absurd rfl hne
  | c :: t =>
    have hcd : c.isDigit = true := hd c (by simp)
    have htr : hasEmptyGroup ((c :: t) ++ r) = false := by
      rw [hasEmptyGroupAppendNoLB (c :: t) r fun e he => digit_ne_lb (hd e he)]
      exact hr
    have hshape : ('[' :: ((c :: t) ++ r) : List Char) = '[' :: c :: (t ++ r) := by simp
    rw [hshape, hasEmptyGroup_cons]
    rw [headIsRBrack_of_ne (digit_ne_rb hcd)]
    rw [show hasEmptyGroup (c :: (t ++ r)) = false from by
      rw [show (c :: (t ++ r) : List Char) = (c :: t) ++ r from by simp]
      exact htr]
    simp

theorem hasEmptyGroupOne (s d : List Char) (hs : ∀ c ∈ s, c ≠ '[')
    (hd : ∀ c ∈ d, c.isDigit = true) (hne : d ≠ []) :
    hasEmptyGroup (s ++ ('[' :: (d ++ [']']))) = false := by
  rw [hasEmptyGroupAppendNoLB s ('[' :: (d ++ [']'])) hs]
  exact hasEmptyGroupGroup d [']'] hd hne (by decide)

theorem hasEmptyGroupTwo (s d1 d2 : List Char) (hs : ∀ c ∈ s, c ≠ '[')
    (h1 : ∀ c ∈ d1, c.isDigit = true) (hne1 : d1 ≠ [])
    (h2 : ∀ c ∈ d2, c.isDigit = true) (hne2 : d2 ≠ []) :
    hasEmptyGroup (s ++ ('[' :: (d1 ++ (']' :: ('[' :: (d2 ++ [']'])))))) = false := by
  rw [hasEmptyGroupAppendNoLB s ('[' :: (d1 ++ (']' :: ('[' :: (d2 ++ [']']))))) hs]
  have h2g : hasEmptyGroup ('[' :: (d2 ++ [']'])) = false :=
    hasEmptyGroupGroup d2 [']'] h2 hne2 (by decide)
  have hinner : hasEmptyGroup (']' :: ('[' :: (d2 ++ [']']))) = false := by
    rw [hasEmptyGroup_cons]
    simp [h2g, headIsRBrack]
  exact hasEmptyGroupGroup d1 (']' :: ('[' :: (d2 ++ [']']))) h1 hne1 hinner

/-- For each whitelisted scalar type name: none of the three layer patterns
match it, it does not end in `*`, and it contains no bracket characters. -/
theorem scalarTypeFacts {sc : String} (h : sc ∈ typeList) :
    ptrPattern sc = false ∧ arrPattern sc = false ∧ vecPattern sc = false ∧
      endsWithStar sc = false ∧ (∀ c ∈ sc.data, c ≠ '[') := by
  simp only [typeList, List.mem_cons, List.not_mem_nil, or_false] at h
  rcases h with rfl | rfl | rfl | rfl | rfl | rfl | rfl <;>
    exact ⟨by decide, by decide, by decide, by decide, by decide⟩

theorem dataUnsignedChar :
    "unsigned char".data = ['u', 'n', 's', 'i', 'g', 'n', 'e', 'd', ' ', 'c', 'h', 'a', 'r'] := rfl

theorem dataUnsignedInt :
    "unsigned int".data = ['u', 'n', 's', 'i', 'g', 'n', 'e', 'd', ' ', 'i', 'n', 't'] := rfl

theorem dataChar : "char".data = ['c', 'h', 'a', 'r'] := rfl

theorem dataShort : "short".data = ['s', 'h', 'o', 'r', 't'] := rfl

theorem dataInt : "int".data = ['i', 'n', 't'] := rfl

theorem dataFloat : "float".data = ['f', 'l', 'o', 'a', 't'] := rfl

theorem dataDouble : "double".data = ['d', 'o', 'u', 'b', 'l', 'e'] := rfl

/-- A type name that begins with a whitelisted scalar name is not a
`std::vector` type. -/
theorem vecPatternScPrefix {sc : String} (hsc : sc ∈ typeList) {s : String}
    {r : List Char} (hs : s.data = sc.data ++ r) : vecPattern s = false := by
  simp only [typeList, List.mem_cons, List.not_mem_nil, or_false] at hsc
  unfold vecPattern
  rw [hs]
  rcases hsc with rfl | rfl | rfl | rfl | rfl | rfl | rfl <;>
    simp [stdVectorChars, List.isPrefixOf, dataUnsignedChar, dataUnsignedInt,
      dataChar, dataShort, dataInt, dataFloat, dataDouble, List.cons_append]

/-- Two strings whose character lists have different lengths are different. -/
theorem strNeOfLen {a b : String} (h : a.data.length ≠ b.data.length) : a ≠ b := by
  intro hab
  exact h (by rw [hab])

/-! ### gdb's type discipline

Real gdb values obey a static type: every child of a pointer, array or
vector value has the same (recursively uniform) type skeleton.  `HasSkel`
captures this; the driver's discovery walk (always index 0) and the
per-cell replay (arbitrary indices) stay in lockstep along it. -/

/-- A static type skeleton for a gdb value. -/
inductive TySkel where
  | scalarT (ty : String)
  | ptrT (ty : String) (elem : TySkel)
  | arrT (ty : String) (elem : TySkel)
  | vecT (ty : String) (elem : TySkel)

/-- The type name at the root of a skeleton. -/
def skelTy : TySkel → String
  | .scalarT ty => ty
  | .ptrT ty _ => ty
  | .arrT ty _ => ty
  | .vecT ty _ => ty

/-- The value conforms to the skeleton: all children of a node share one
element skeleton, recursively. -/
inductive HasSkel : GVal → TySkel → Prop where
  | scalar : ∀ ty v, HasSkel (.scalar ty v) (.scalarT ty)
  | ptr : ∀ ty t k, (∀ i, HasSkel (t i) k) → HasSkel (.ptr ty t) (.ptrT ty k)
  | fixedArr : ∀ ty t k, (∀ i, HasSkel (t i) k) → HasSkel (.fixedArr ty t) (.arrT ty k)
  | vec : ∀ ty t len k, (∀ i, HasSkel (t i) k) → HasSkel (.vec ty t len) (.vecT ty k)

theorem HasSkel.ty_eq {v : GVal} {k : TySkel} (h : HasSkel v k) :
    typeOf v = skelTy k := by
  cases h <;> rfl

theorem applyStepNil (f : StepKind) (v : GVal) : applyStep f v [] = none := by
  cases f <;> rfl

theorem applyStepHead (f : StepKind) (v : GVal) (i : Nat) (rest : List Nat) :
    applyStep f v (i :: rest) = applyStep f v [i] := by
  cases f <;> rfl

/-- One step applied to two values of the same skeleton, at any indices:
both fail, or both succeed with results again of one common skeleton. -/
theorem stepSkelPair {a b : GVal} {k : TySkel} (ha : HasSkel a k) (hb : HasSkel b k)
    (f : StepKind) (ixa ixb : List Nat) (hia : ixa ≠ []) (hib : ixb ≠ []) :
    (applyStep f a ixa = none ∧ applyStep f b ixb = none) ∨
    (∃ a' b' k', applyStep f a ixa = some a' ∧ applyStep f b ixb = some b' ∧
      HasSkel a' k' ∧ HasSkel b' k') := by
  obtain ⟨i, ra, rfl⟩ := List.exists_cons_of_ne_nil hia
  obtain ⟨j, rb, rfl⟩ := List.exists_cons_of_ne_nil hib
  cases k with
  | scalarT ty =>
    cases ha
    cases hb
    cases f <;> exact Or.inl ⟨rfl, rfl⟩
  | ptrT ty k' =>
    cases ha with
    | ptr _ t _ h1 =>
      cases hb with
      | ptr _ s _ h2 =>
        cases f with
        | ptrStep => exact Or.inr ⟨t i, s j, k', rfl, rfl, h1 i, h2 j⟩
        | arrStep => exact Or.inr ⟨t i, s j, k', rfl, rfl, h1 i, h2 j⟩
        | vecStep => exact Or.inl ⟨rfl, rfl⟩
  | arrT ty k' =>
    cases ha with
    | fixedArr _ t _ h1 =>
      cases hb with
      | fixedArr _ s _ h2 =>
        cases f with
        | ptrStep => exact Or.inr ⟨t i, s j, k', rfl, rfl, h1 i, h2 j⟩
        | arrStep => exact Or.inr ⟨t i, s j, k', rfl, rfl, h1 i, h2 j⟩
        | vecStep => exact Or.inl ⟨rfl, rfl⟩
  | vecT ty k' =>
    cases ha with
    | vec _ t len1 _ h1 =>
      cases hb with
      | vec _ s len2 _ h2 =>
        cases f with
        | ptrStep => exact Or.inl ⟨rfl, rfl⟩
        | arrStep => exact Or.inl ⟨rfl, rfl⟩
        | vecStep => exact Or.inr ⟨t i, s j, k', rfl, rfl, h1 i, h2 j⟩

/-- Chain replay on two values of one skeleton, over index tuples of equal
length: both runs fail together or succeed together, with results of one
common skeleton (hence equal type names). -/
theorem chainCongr : ∀ (funcs : List StepKind) (argNo : List Nat) (a b : GVal)
    (k : TySkel) (ix jx : List Nat), HasSkel a k → HasSkel b k →
    ix.length = jx.length →
    (chainApply funcs argNo ix a = none ∧ chainApply funcs argNo jx b = none) ∨
    (∃ a' b' k', chainApply funcs argNo ix a = some a' ∧
      chainApply funcs argNo jx b = some b' ∧ HasSkel a' k' ∧ HasSkel b' k') := by
  intro funcs
  induction funcs with
  | nil =>
    intro argNo a b k ix jx ha hb _
    exact Or.inr ⟨a, b, k, rfl, rfl, ha, hb⟩
  | cons f fs ih =>
    intro argNo a b k ix jx ha hb hlen
    match argNo with
    | [] => exact Or.inr ⟨a, b, k, rfl, rfl, ha, hb⟩
    | n :: as' =>
      by_cases hnil : ix.take n = []
      · have hjnil : jx.take n = [] := by
          have h1 : (ix.take n).length = (jx.take n).length := by
            simp [List.length_take, hlen]
          rw [hnil] at h1
          exact List.eq_nil_of_length_eq_zero h1.symm
        left
        constructor
        · simp [chainApply, hnil, applyStepNil]
        · simp [chainApply, hjnil, applyStepNil]
      · have hjnil : jx.take n ≠ [] := by
          intro hj
          have h1 : (ix.take n).length = (jx.take n).length := by
            simp [List.length_take, hlen]
          rw [hj] at h1
          exact hnil (List.eq_nil_of_length_eq_zero h1)
        rcases stepSkelPair ha hb f (ix.take n) (jx.take n) hnil hjnil with
          ⟨hna, hnb⟩ | ⟨a', b', k', hsa, hsb, hka, hkb⟩
        · left
          constructor
          · simp [chainApply, hna]
          · simp [chainApply, hnb]
        · have hdlen : (ix.drop n).length = (jx.drop n).length := by
            simp [hlen]
          rcases ih as' a' b' k' (ix.drop n) (jx.drop n) hka hkb hdlen with
            ⟨h1, h2⟩ | ⟨a2, b2, k2, h1, h2, h3, h4⟩
          · left
            constructor
            · simp [chainApply, hsa, h1]
            · simp [chainApply, hsb, h2]
          · right
            refine ⟨a2, b2, k2, ?_, ?_, h3, h4⟩
            · simp [chainApply, hsa, h1]
            · simp [chainApply, hsb, h2]

theorem chainApplyAppend : ∀ (funcs : List StepKind) (argNo : List Nat)
    (fs2 : List StepKind) (as2 : List Nat) (ix : List Nat) (v : GVal),
    funcs.length = argNo.length →
    chainApply (funcs ++ fs2) (argNo ++ as2) ix v =
      (match chainApply funcs argNo ix v with
       | some w => chainApply fs2 as2 (ix.drop argNo.sum) w
       | none => none) := by
  intro funcs
  induction funcs with
  | nil =>
    intro argNo fs2 as2 ix v hlen
    have h0 : argNo = [] := List.eq_nil_of_length_eq_zero (by simp [← hlen])
    subst h0
    simp [chainApply]
  | cons f fs ih =>
    intro argNo fs2 as2 ix v hlen
    match argNo with
    | [] => simp at hlen
    | n :: as' =>
      simp only [List.cons_append, chainApply]
      match hsa : applyStep f v (ix.take n) with
      | none => rfl
      | some w =>
        show chainApply (fs ++ fs2) (as' ++ as2) (List.drop n ix) w =
          (match chainApply fs as' (List.drop n ix) w with
           | some w2 => chainApply fs2 as2 (List.drop ((n :: as').sum) ix) w2
           | none => none)
        rw [ih as' fs2 as2 (ix.drop n) w (by simpa using hlen)]
        rw [List.drop_drop, List.sum_cons]

theorem prodIndices_length : ∀ (bs : List Nat) (ix : List Nat),
    ix ∈ prodIndices bs → ix.length = bs.length := by
  intro bs
  induction bs with
  | nil =>
    intro ix h
    simp only [prodIndices, List.mem_singleton] at h
    simp [h]
  | cons b bs ih =>
    intro ix h
    simp only [prodIndices, List.mem_flatMap, List.mem_map] at h
    obtain ⟨i, _, ix', hix', rfl⟩ := h
    simp [ih ix' hix']

theorem mem_prodIndices_cons {b : Nat} {bs : List Nat} {ix : List Nat} :
    ix ∈ prodIndices (b :: bs) ↔
      ∃ i ix', ix = i :: ix' ∧ i < b ∧ ix' ∈ prodIndices bs := by
  simp only [prodIndices, List.mem_flatMap, List.mem_map, List.mem_range]
  constructor
  · rintro ⟨i, hi, ix', hix', rfl⟩
    exact ⟨i, ix', rfl, hi, hix'⟩
  · rintro ⟨i, ix', rfl, hi, hix'⟩
    exact ⟨i, hi, ix', hix', rfl⟩

/-! ### Loop invariants of the composition driver -/

theorem mkDeRefPtrOk {val : GVal} {si : Option Nat} {shape : Option (List Nat)}
    {lo : LayerOut} (h : mkDeRefPtr val si shape = .ok lo) :
    indexVal val 0 = some lo.val ∧ lo.bounds.length = 1 := by
  match shape with
  | none => simp [mkDeRefPtr] at h
  | some sh =>
    match hv : indexVal val 0 with
    | none => simp [mkDeRefPtr, hv] at h
    | some v =>
      match si with
      | none => simp [mkDeRefPtr, hv, getRangeFromShape] at h
      | some si0 =>
        by_cases hle : si0 + 1 > sh.length
        · simp [mkDeRefPtr, hv, getRangeFromShape, hle] at h
        · simp only [mkDeRefPtr, hv, getRangeFromShape, if_neg hle] at h
          injection h with h2
          subst h2
          refine ⟨rfl, ?_⟩
          simp only [List.length_take, List.length_drop]
          omega

theorem mkDeRefArrOk {val : GVal} {si : Option Nat} {lo : LayerOut}
    (h : mkDeRefArr val si = .ok lo) :
    indexVal val 0 = some lo.val ∧ lo.bounds.length = 1 := by
  unfold mkDeRefArr at h
  by_cases hempty : hasEmptyGroup (typeOf val).data
  · simp [hempty] at h
  · simp only [hempty, Bool.false_eq_true, if_false] at h
    match hg : (trailingGroupsRev (typeOf val).data.reverse).1.reverse with
    | [] => rw [hg] at h; exact absurd h (by simp)
    | g :: gs =>
      rw [hg] at h
      match hv : indexVal val 0 with
      | none => rw [hv] at h; exact absurd h (by simp)
      | some v =>
        rw [hv] at h
        injection h with h2
        subst h2
        exact ⟨rfl, rfl⟩

theorem mkDeRefVecOk {val : GVal} {si : Option Nat} {lo : LayerOut}
    (h : mkDeRefVec val si = .ok lo) :
    vecElem val 0 = some lo.val ∧ lo.bounds.length = 1 := by
  match val with
  | .scalar ty v => simp [mkDeRefVec] at h
  | .ptr ty t => simp [mkDeRefVec] at h
  | .fixedArr ty e => simp [mkDeRefVec] at h
  | .vec ty mem len =>
    simp only [mkDeRefVec] at h
    injection h with h2
    subst h2
    exact ⟨rfl, rfl⟩

theorem skel_indexVal {v w : GVal} {k : TySkel} {i : Nat} (hk : HasSkel v k)
    (h : indexVal v i = some w) : ∃ k', HasSkel w k' := by
  cases hk with
  | scalar ty x => simp [indexVal] at h
  | ptr ty t k' hc =>
    simp only [indexVal, Option.some.injEq] at h
    exact ⟨k', h ▸ hc i⟩
  | fixedArr ty t k' hc =>
    simp only [indexVal, Option.some.injEq] at h
    exact ⟨k', h ▸ hc i⟩
  | vec ty t len k' hc => simp [vecElem, indexVal] at h

theorem skel_vecElem {v w : GVal} {k : TySkel} {i : Nat} (hk : HasSkel v k)
    (h : vecElem v i = some w) : ∃ k', HasSkel w k' := by
  cases hk with
  | scalar ty x => simp [vecElem] at h
  | ptr ty t k' hc => simp [vecElem] at h
  | fixedArr ty t k' hc => simp [vecElem] at h
  | vec ty t len k' hc =>
    simp only [vecElem, Option.some.injEq] at h
    exact ⟨k', h ▸ hc i⟩

/-- The invariant the driver loop maintains: bookkeeping lists line up,
the current value conforms to some skeleton, and replaying the recorded
chain from the root at an all-zero index tuple (of any sufficient length)
reproduces the current value. -/
def replayInv (root : GVal) (st : DS) : Prop :=
  st.funcs.length = st.argNo.length ∧
  st.argNo.sum = st.bounds.length ∧
  (∃ k, HasSkel st.val k) ∧
  ∀ n, st.bounds.length ≤ n →
    chainApply st.funcs st.argNo (List.replicate n 0) root = some st.val

theorem pushLayer_inv {root : GVal} {st : DS} {lo : LayerOut} {k : StepKind}
    (hstep : applyStep k st.val [0] = some lo.val)
    (hskel : ∃ k2, HasSkel lo.val k2)
    (hlen : lo.bounds.length = 1)
    (hinv : replayInv root st) : replayInv root (pushLayer st k lo) := by
  obtain ⟨hfa, hsum, _, hrep⟩ := hinv
  refine ⟨?_, ?_, hskel, ?_⟩
  · simp [pushLayer, hfa]
  · simp [pushLayer, hsum, hlen]
  · intro n hn
    simp only [pushLayer, List.length_append, hlen] at hn ⊢
    rw [chainApplyAppend st.funcs st.argNo [k] [1]
      (List.replicate n 0) root hfa, hrep n (by omega)]
    show chainApply [k] [1]
      (List.drop st.argNo.sum (List.replicate n 0)) st.val = some lo.val
    rw [List.drop_replicate]
    obtain ⟨m, hm⟩ : ∃ m, n - st.argNo.sum = m + 1 := ⟨n - st.argNo.sum - 1, by omega⟩
    rw [hm]
    simp only [chainApply, List.take_replicate, List.drop_replicate]
    rw [show (1 ⊓ (m + 1)) = 1 from by omega]
    rw [show List.replicate 1 (0 : Nat) = [0] from rfl, hstep]

theorem derefPtrStep_inv {root : GVal} {st st' : DS} {shape : Option (List Nat)}
    (h : derefPtrStep st shape = .ok st') (hinv : replayInv root st) :
    replayInv root st' := by
  unfold derefPtrStep at h
  split at h
  · match hmk : mkDeRefPtr st.val st.shapeInd shape with
    | .error e => rw [hmk] at h; exact absurd h (by simp)
    | .ok lo =>
      rw [hmk] at h
      injection h with h2
      subst h2
      obtain ⟨hv, hlen⟩ := mkDeRefPtrOk hmk
      have hskel : ∃ k2, HasSkel lo.val k2 := by
        obtain ⟨-, -, ⟨k0, hk0⟩, -⟩ := hinv
        exact skel_indexVal hk0 hv
      exact pushLayer_inv (k := .ptrStep) hv hskel hlen hinv
  · injection h with h2
    subst h2
    exact hinv

theorem derefArrStep_inv {root : GVal} {st st' : DS}
    (h : derefArrStep st = .ok st') (hinv : replayInv root st) :
    replayInv root st' := by
  unfold derefArrStep at h
  split at h
  · match hmk : mkDeRefArr st.val st.shapeInd with
    | .error e => rw [hmk] at h; exact absurd h (by simp)
    | .ok lo =>
      rw [hmk] at h
      injection h with h2
      subst h2
      obtain ⟨hv, hlen⟩ := mkDeRefArrOk hmk
      have hskel : ∃ k2, HasSkel lo.val k2 := by
        obtain ⟨-, -, ⟨k0, hk0⟩, -⟩ := hinv
        exact skel_indexVal hk0 hv
      exact pushLayer_inv (k := .arrStep) hv hskel hlen hinv
  · injection h with h2
    subst h2
    exact hinv

theorem derefContainerList_inv {root : GVal} {st st' : DS}
    (h : derefContainerList st = .ok st') (hinv : replayInv root st) :
    replayInv root st' := by
  unfold derefContainerList at h
  split at h
  · match hmk : mkDeRefVec st.val st.shapeInd with
    | .error e => rw [hmk] at h; exact absurd h (by simp)
    | .ok lo =>
      rw [hmk] at h
      injection h with h2
      subst h2
      obtain ⟨hv, hlen⟩ := mkDeRefVecOk hmk
      have hskel : ∃ k2, HasSkel lo.val k2 := by
        obtain ⟨-, -, ⟨k0, hk0⟩, -⟩ := hinv
        exact skel_vecElem hk0 hv
      exact pushLayer_inv (k := .vecStep) hv hskel hlen hinv
  · injection h with h2
    subst h2
    exact hinv

theorem derefPtrList_inv {root : GVal} {st st' : DS} {shape : Option (List Nat)}
    (h : derefPtrList st shape = .ok st') (hinv : replayInv root st) :
    replayInv root st' := by
  unfold derefPtrList at h
  match h1 : derefPtrStep st shape with
  | .error e => rw [h1] at h; exact absurd h (by simp)
  | .ok st1 =>
    rw [h1] at h
    exact derefArrStep_inv h (derefPtrStep_inv h1 hinv)

theorem gdfLoop_inv : ∀ (fuel : Nat) (st : DS) (shape : Option (List Nat))
    (st' : DS) (root : GVal), gdfLoop fuel st shape = .ok st' →
    replayInv root st → replayInv root st' := by
  intro fuel
  induction fuel with
  | zero =>
    intro st shape st' root h
    simp [gdfLoop] at h
  | succ n ih =>
    intro st shape st' root h hinv
    simp only [gdfLoop] at h
    match h1 : derefPtrList st shape with
    | .error e => rw [h1] at h; exact absurd h (by simp)
    | .ok st1 =>
      rw [h1] at h
      have hA : (match derefContainerList st1 with
          | Except.error e => (Except.error e : Except GErr DS)
          | Except.ok st2 => if typeOf st2.val = typeOf st.val then Except.ok st2
            else gdfLoop n st2 shape) = Except.ok st' := h
      match h2 : derefContainerList st1 with
      | .error e => rw [h2] at hA; exact absurd hA (by simp)
      | .ok st2 =>
        rw [h2] at hA
        have hinv2 := derefContainerList_inv h2 (derefPtrList_inv h1 hinv)
        have hB : (if typeOf st2.val = typeOf st.val then (Except.ok st2 : Except GErr DS)
            else gdfLoop n st2 shape) = Except.ok st' := hA
        split at hB
        · injection hB with h3
          subst h3
          exact hinv2
        · exact ih st2 shape st' root hB hinv2

theorem finishCompOk {st : DS} {shape : Option (List Nat)} {res : CompResult}
    (h : finishComp st shape = .ok res) :
    res.funcs = st.funcs ∧ res.argNo = st.argNo ∧
      res.bounds = st.bounds ∧ res.dtype = typeOf st.val := by
  unfold finishComp at h
  match hsi : st.shapeInd with
  | none =>
    simp only [hsi] at h
    injection h with h2
    subst h2
    exact ⟨rfl, rfl, rfl, rfl⟩
  | some si =>
    simp only [hsi] at h
    by_cases hsi0 : si = 0
    · rw [if_pos hsi0] at h
      injection h with h2
      subst h2
      exact ⟨rfl, rfl, rfl, rfl⟩
    · rw [if_neg hsi0] at h
      match shape with
      | none => exact absurd h (by simp)
      | some sh =>
        injection h with h2
        subst h2
        exact ⟨rfl, rfl, rfl, rfl⟩

/-- Support for C4: a completed composition satisfies the bookkeeping
invariants, and replay from the root reaches a terminal-typed value on
every index tuple of the bounds product. -/
theorem getDerefFuncs_inv {fuel : Nat} {val : GVal} {shape : Option (List Nat)}
    {res : CompResult} {k : TySkel} (hk : HasSkel val k)
    (h : getDerefFuncs fuel val shape = .ok res) :
    res.funcs.length = res.argNo.length ∧
    res.argNo.sum = res.bounds.length ∧
    ∀ ix ∈ prodIndices res.bounds,
      ∃ w, chainApply res.funcs res.argNo ix val = some w ∧ typeOf w = res.dtype := by
  unfold getDerefFuncs at h
  match hloop : gdfLoop fuel ⟨val, [], [], [], initShapeInd shape⟩ shape with
  | .error e => rw [hloop] at h; exact absurd h (by simp)
  | .ok st =>
    rw [hloop] at h
    have hA : finishComp st shape = Except.ok res := h
    have hinv : replayInv val st :=
      gdfLoop_inv _ _ _ _ _ hloop ⟨rfl, rfl, ⟨k, hk⟩, fun n _ => rfl⟩
    obtain ⟨hfa, hsum, ⟨kst, hkst⟩, hrep⟩ := hinv
    have hres : res.funcs = st.funcs ∧ res.argNo = st.argNo ∧
        res.bounds = st.bounds ∧ res.dtype = typeOf st.val :=
      finishCompOk hA
    obtain ⟨hf, ha, hb, hd⟩ := hres
    refine ⟨by rw [hf, ha]; exact hfa, by rw [ha, hb]; exact hsum, ?_⟩
    intro ix hix
    have hlenix : ix.length = res.bounds.length := prodIndices_length _ _ hix
    have hzero := hrep st.bounds.length (le_refl _)
    have hcc := chainCongr st.funcs st.argNo val val k ix
      (List.replicate st.bounds.length 0) hk hk (by simp [hlenix, hb])
    rcases hcc with ⟨h1, h2⟩ | ⟨a', b', k', h1, h2, h3, h4⟩
    · rw [hzero] at h2
      exact absurd h2 (by simp)
    · refine ⟨a', by rw [hf, ha]; exact h1, ?_⟩
      have hbv : b' = st.val := by
        have h5 := h2.symm.trans hzero
        injection h5
      rw [hd, ← hbv, h3.ty_eq, h4.ty_eq]

/-! ### Evaluation lemmas for the driver and the fill loop -/

theorem derefPtrList_none {st : DS} {shape : Option (List Nat)}
    (hp : ptrPattern (typeOf st.val) = false)
    (ha : arrPattern (typeOf st.val) = false) :
    derefPtrList st shape = .ok st := by
  simp [derefPtrList, derefPtrStep, hp, derefArrStep, ha]

theorem derefPtrList_arrOnly {st : DS} {shape : Option (List Nat)} {lo : LayerOut}
    (hp : ptrPattern (typeOf st.val) = false)
    (ha : arrPattern (typeOf st.val) = true)
    (hmk : mkDeRefArr st.val st.shapeInd = .ok lo) :
    derefPtrList st shape = .ok (pushLayer st .arrStep lo) := by
  simp [derefPtrList, derefPtrStep, hp, derefArrStep, ha, hmk]

theorem derefPtrList_ptrOnly {st : DS} {shape : Option (List Nat)} {lo : LayerOut}
    (hp : ptrPattern (typeOf st.val) = true)
    (hmk : mkDeRefPtr st.val st.shapeInd shape = .ok lo)
    (ha : arrPattern (typeOf lo.val) = false) :
    derefPtrList st shape = .ok (pushLayer st .ptrStep lo) := by
  simp [derefPtrList, derefPtrStep, hp, hmk, derefArrStep, pushLayer, ha]

theorem derefContainerList_noVec {st : DS}
    (hv : vecPattern (typeOf st.val) = false) :
    derefContainerList st = .ok st := by
  simp [derefContainerList, hv]

theorem derefContainerList_vec {st : DS} {lo : LayerOut}
    (hv : vecPattern (typeOf st.val) = true)
    (hmk : mkDeRefVec st.val st.shapeInd = .ok lo) :
    derefContainerList st = .ok (pushLayer st .vecStep lo) := by
  simp [derefContainerList, hv, hmk]

theorem gdfLoop_step {fuel : Nat} {st st1 st2 : DS} {shape : Option (List Nat)}
    (h1 : derefPtrList st shape = .ok st1)
    (h2 : derefContainerList st1 = .ok st2)
    (hne : typeOf st2.val ≠ typeOf st.val) :
    gdfLoop (fuel + 1) st shape = gdfLoop fuel st2 shape := by
  simp [gdfLoop, h1, h2, hne]

theorem gdfLoop_last {fuel : Nat} {st st1 st2 : DS} {shape : Option (List Nat)}
    (h1 : derefPtrList st shape = .ok st1)
    (h2 : derefContainerList st1 = .ok st2)
    (heq : typeOf st2.val = typeOf st.val) :
    gdfLoop (fuel + 1) st shape = .ok st2 := by
  simp [gdfLoop, h1, h2, heq]

theorem gdfLoop_ptr_error {fuel : Nat} {st : DS} {shape : Option (List Nat)} {e : GErr}
    (hp : ptrPattern (typeOf st.val) = true)
    (hmk : mkDeRefPtr st.val st.shapeInd shape = .error e) :
    gdfLoop (fuel + 1) st shape = .error e := by
  simp [gdfLoop, derefPtrList, derefPtrStep, hp, hmk]

theorem gdfLoop_arr_error {fuel : Nat} {st : DS} {shape : Option (List Nat)} {e : GErr}
    (hp : ptrPattern (typeOf st.val) = false)
    (ha : arrPattern (typeOf st.val) = true)
    (hmk : mkDeRefArr st.val st.shapeInd = .error e) :
    gdfLoop (fuel + 1) st shape = .error e := by
  simp [gdfLoop, derefPtrList, derefPtrStep, hp, derefArrStep, ha, hmk]

theorem getDerefFuncs_error_of_loop {fuel : Nat} {val : GVal}
    {shape : Option (List Nat)} {e : GErr}
    (h : gdfLoop fuel ⟨val, [], [], [], initShapeInd shape⟩ shape = .error e) :
    getDerefFuncs fuel val shape = .error e := by
  simp [getDerefFuncs, h]

theorem getDerefFuncs_error_toArray {fuel : Nat} {env : String → Option GVal}
    {var : String} {val : GVal} {shape : Option (List Nat)} {e : GErr}
    (henv : env var = some val) (h : getDerefFuncs fuel val shape = .error e) :
    toArray fuel env var shape = .error e := by
  simp [toArray, henv, h]

theorem dropTakeOne : ∀ (sh : List Nat) (si : Nat), si < sh.length →
    (sh.drop si).take 1 = [sh.getD si 0] := by
  intro sh
  induction sh with
  | nil =>
    intro si h
    simp at h
  | cons x xs ih =>
    intro si h
    cases si with
    | zero => simp
    | succ n =>
      simp only [List.drop_succ_cons, List.getD_cons_succ]
      exact ih n (by simpa using h)

theorem mkDeRefPtr_eval {ty : String} {t : Nat → GVal} {si : Nat} {sh : List Nat}
    (hlt : si < sh.length) :
    mkDeRefPtr (.ptr ty t) (some si) (some sh) =
      .ok ⟨t 0, [sh.getD si 0], some (si + 1)⟩ := by
  simp only [mkDeRefPtr, indexVal, getRangeFromShape]
  rw [if_neg (by omega)]
  rw [dropTakeOne sh si hlt]

theorem mkDeRefArr_eval {ty : String} {e : Nat → GVal} {si : Option Nat}
    {g : List Char} {gs : List (List Char)}
    (hempty : hasEmptyGroup ty.data = false)
    (hg : (trailingGroupsRev ty.data.reverse).1.reverse = g :: gs) :
    mkDeRefArr (.fixedArr ty e) si = .ok ⟨e 0, [digitsToNat g], si⟩ := by
  simp [mkDeRefArr, typeOf, hempty, hg, indexVal]

theorem mkDeRefVec_eval {ty : String} {mem : Nat → GVal} {len : Nat}
    {si : Option Nat} :
    mkDeRefVec (.vec ty mem len) si = .ok ⟨mem 0, [len], si⟩ := rfl

theorem fillLoopOk (env : String → Option GVal) (var : String)
    (funcs : List StepKind) (argNo : List Nat) (root : GVal) (g : List Nat → Int)
    (henv : env var = some root) :
    ∀ (l : List (List Nat)) (init : List Nat → Int),
      (∀ ix ∈ l, ∃ w, chainApply funcs argNo ix root = some w ∧
        castScalar w = .ok (g ix)) →
      ∃ data, fillLoop env var funcs argNo l init = .ok data ∧
        ∀ ix, data ix = if ix ∈ l then g ix else init ix := by
  intro l
  induction l with
  | nil =>
    intro init _
    exact ⟨init, rfl, by intro ix; simp⟩
  | cons ix0 rest ih =>
    intro init h
    obtain ⟨w, hw, hcast⟩ := h ix0 (by simp)
    obtain ⟨data, hdata, hprop⟩ :=
      ih (fun ix' => if ix' = ix0 then g ix0 else init ix')
        (fun ix hix => h ix (by simp [hix]))
    refine ⟨data, ?_, ?_⟩
    · simp only [fillLoop, henv, hw, hcast]
      exact hdata
    · intro ix
      rw [hprop ix]
      by_cases hmem : ix ∈ rest
      · simp [hmem]
      · by_cases heq : ix = ix0
        · subst heq
          simp [hmem]
        · simp [hmem, heq]

theorem toArray_eval {fuel : Nat} {env : String → Option GVal} {var : String}
    {val : GVal} {shape : Option (List Nat)} {res : CompResult} {g : List Nat → Int}
    (henv : env var = some val)
    (hgdf : getDerefFuncs fuel val shape = .ok res)
    (hdt : res.dtype ∈ typeList)
    (hfill : ∀ ix ∈ prodIndices res.bounds,
      ∃ w, chainApply res.funcs res.argNo ix val = some w ∧
        castScalar w = .ok (g ix)) :
    ∃ data, toArray fuel env var shape = .ok ⟨res.bounds, res.dtype, data⟩ ∧
      ∀ ix, data ix = if ix ∈ prodIndices res.bounds then g ix else 0 := by
  obtain ⟨data, hdata, hprop⟩ := fillLoopOk env var res.funcs res.argNo val g henv
    (prodIndices res.bounds) (fun _ => 0) hfill
  refine ⟨data, ?_, fun ix => by rw [hprop ix]⟩
  simp only [toArray, henv, hgdf, if_pos hdt, hdata]

theorem mem_prod_one {k i : Nat} : [i] ∈ prodIndices [k] ↔ i < k := by
  rw [mem_prodIndices_cons]
  constructor
  · rintro ⟨a, ix', hix, ha, -⟩
    cases hix
    exact ha
  · intro hi
    exact ⟨i, [], rfl, hi, by simp [prodIndices]⟩

theorem mem_prod_two {m n i j : Nat} :
    [i, j] ∈ prodIndices [m, n] ↔ i < m ∧ j < n := by
  rw [mem_prodIndices_cons]
  constructor
  · rintro ⟨a, ix', hix, ha, hmem⟩
    cases hix
    exact ⟨ha, mem_prod_one.mp hmem⟩
  · rintro ⟨hi, hj⟩
    exact ⟨i, [j], rfl, hi, mem_prod_one.mpr hj⟩

/-! ### The claims -/

/-- C2: for a single-level pointer-to-whitelisted-scalar variable called
with `shape_hint = (k,)`, `to_array` returns a buffer of shape `(k,)` whose
cell `i` is the scalar at offset `i` from the pointer target, for all
`i < k`; and the pointer layer claims exactly one dimension from the hint
at the cursor position, advances the cursor by 1, and uses that entry as
its bound without validating it. -/
theorem claim_C2 (fuel : Nat) (env : String → Option GVal) (var : String)
    (ty sc : String) (v : Nat → Int) (k : Nat)
    (hf : 2 ≤ fuel) (hsc : sc ∈ typeList) (hstar : endsWithStar ty = true)
    (henv : env var = some (.ptr ty (fun i => .scalar sc (v i)))) :
    (∃ buf, toArray fuel env var (some [k]) = .ok buf ∧
      buf.shape = [k] ∧ buf.dtype = sc ∧ ∀ i, i < k → buf.data [i] = v i) ∧
    (∀ (tv : Nat → GVal) (si : Nat) (sh : List Nat), si < sh.length →
      mkDeRefPtr (.ptr ty tv) (some si) (some sh) =
        .ok ⟨tv 0, [sh.getD si 0], some (si + 1)⟩) := by
  obtain ⟨hpsc, hasc, hvsc, hssc, -⟩ := scalarTypeFacts hsc
  constructor
  · obtain ⟨f, rfl⟩ : ∃ f, fuel = f + 2 := ⟨fuel - 2, by omega⟩
    have hne : sc ≠ ty := by
      intro heq
      rw [heq, hstar] at hssc
      simp at hssc
    have hp : ptrPattern ty = true := by
      simp [ptrPattern, hstar]
    have h1 : derefPtrList ⟨.ptr ty (fun i => .scalar sc (v i)), [], [], [], some 0⟩
        (some [k]) = .ok ⟨.scalar sc (v 0), [.ptrStep], [k], [1], some 1⟩ :=
      @derefPtrList_ptrOnly ⟨.ptr ty (fun i => .scalar sc (v i)), [], [], [], some 0⟩
        (some [k]) ⟨.scalar sc (v 0), [k], some 1⟩ hp
        (mkDeRefPtr_eval (by simp)) hasc
    have h2 : derefContainerList ⟨.scalar sc (v 0), [.ptrStep], [k], [1], some 1⟩ =
        .ok ⟨.scalar sc (v 0), [.ptrStep], [k], [1], some 1⟩ :=
      derefContainerList_noVec hvsc
    have h3 : derefPtrList ⟨.scalar sc (v 0), [.ptrStep], [k], [1], some 1⟩
        (some [k]) = .ok ⟨.scalar sc (v 0), [.ptrStep], [k], [1], some 1⟩ :=
      derefPtrList_none hpsc hasc
    have hloop : gdfLoop (f + 2)
        ⟨.ptr ty (fun i => .scalar sc (v i)), [], [], [], some 0⟩ (some [k]) =
        .ok ⟨.scalar sc (v 0), [.ptrStep], [k], [1], some 1⟩ := by
      rw [gdfLoop_step h1 h2 hne]
      exact gdfLoop_last h3 h2 rfl
    have hgdf : getDerefFuncs (f + 2) (.ptr ty (fun i => .scalar sc (v i)))
        (some [k]) = .ok ⟨[.ptrStep], [1], [k], sc, false⟩ := by
      have hinit : initShapeInd (some [k]) = some 0 := rfl
      simp only [getDerefFuncs, hinit, hloop]
      rfl
    have hfill : ∀ ix ∈ prodIndices ([k] : List Nat),
        ∃ w, chainApply [StepKind.ptrStep] [1] ix
          (GVal.ptr ty (fun i => .scalar sc (v i))) = some w ∧
          castScalar w = .ok (v (ix.headD 0)) := by
      intro ix hix
      obtain ⟨i, ix', rfl, hik, hmem'⟩ := mem_prodIndices_cons.mp hix
      have hnil : ix' = [] := by
        simpa [prodIndices] using hmem'
      subst hnil
      exact ⟨.scalar sc (v i), by simp [chainApply, applyStep, indexVal], rfl⟩
    obtain ⟨data, htoA, hdata⟩ := toArray_eval (g := fun ix => v (ix.headD 0))
      henv hgdf hsc hfill
    refine ⟨⟨[k], sc, data⟩, htoA, rfl, rfl, ?_⟩
    intro i hik
    show data [i] = v i
    rw [hdata [i]]
    simp [mem_prod_one.mpr hik]
  · intro tv si sh hlt
    exact mkDeRefPtr_eval hlt

/-- C3: for a fixed-array-of-pointer-to-scalar variable with declared array
dimension `m` (read from the type name) and `shape_hint = (k,)`, `to_array`
returns a buffer of overall shape `(m, k)`: the FixedArray bound comes from
the type name, the Pointer bound from the hint, in outer-to-inner discovery
order. -/
theorem claim_C3 (fuel : Nat) (env : String → Option GVal) (var : String)
    (ty typ sc : String) (d1 : List Char) (w : Nat → Nat → Int) (k m : Nat)
    (hf : 3 ≤ fuel) (hsc : sc ∈ typeList)
    (hd1 : ∀ c ∈ d1, c.isDigit = true) (hd1ne : d1 ≠ [])
    (hyty : ty.data = (sc.data ++ [' ', '*']) ++ ('[' :: (d1 ++ [']'])))
    (htyp : typ.data = sc.data ++ [' ', '*'])
    (hm : m = digitsToNat d1)
    (henv : env var =
      some (.fixedArr ty (fun i => .ptr typ (fun j => .scalar sc (w i j))))) :
    ∃ buf, toArray fuel env var (some [k]) = .ok buf ∧
      buf.shape = [m, k] ∧ buf.dtype = sc ∧
      ∀ i j, i < m → j < k → buf.data [i, j] = w i j := by
  subst hm
  obtain ⟨f, rfl⟩ : ∃ f, fuel = f + 3 := ⟨fuel - 3, by omega⟩
  obtain ⟨hpsc, hasc, hvsc, hssc, hscNoLB⟩ := scalarTypeFacts hsc
  have hrev : ty.data.reverse =
      ']' :: (d1.reverse ++ '[' :: ('*' :: ' ' :: sc.data.reverse)) := by
    rw [hyty, revOneGroup]
    simp
  have htgr : trailingGroupsRev ty.data.reverse =
      ([d1], '*' :: ' ' :: sc.data.reverse) := by
    rw [hrev, trailingGroupsRev_of_some (stripGroupRev_group d1 _ hd1),
      trailingGroupsRev_of_none (stripGroupRev_of_head_ne (by simp))]
  have hep : endsWithStar ty = false := by
    unfold endsWithStar
    rw [hrev]
    rfl
  have hpty : ptrPattern ty = false := by
    simp [ptrPattern, hep, htgr]
  have haty : arrPattern ty = true := by
    simp [arrPattern, htgr]
  have hsNoLB : ∀ c ∈ sc.data ++ [' ', '*'], c ≠ '[' := by
    intro c hc
    rcases List.mem_append.mp hc with h | h
    · exact hscNoLB c h
    · simp only [List.mem_cons, List.not_mem_nil, or_false] at h
      rcases h with rfl | rfl <;> decide
  have hempty : hasEmptyGroup ty.data = false := by
    rw [hyty]
    exact hasEmptyGroupOne _ d1 hsNoLB hd1 hd1ne
  have hg : (trailingGroupsRev ty.data.reverse).1.reverse = d1 :: [] := by
    rw [htgr]
    simp
  have hvty : vecPattern ty = false :=
    vecPatternScPrefix hsc (r := [' ', '*'] ++ ('[' :: (d1 ++ [']'])))
      (by rw [hyty]; simp)
  have heptyp : endsWithStar typ = true := by
    unfold endsWithStar
    rw [htyp]
    simp
  have hptyp : ptrPattern typ = true := by
    simp [ptrPattern, heptyp]
  have hvtyp : vecPattern typ = false := vecPatternScPrefix hsc htyp
  have hneTyTyp : typ ≠ ty := by
    apply strNeOfLen
    rw [hyty, htyp]
    have : 0 < d1.length := List.length_pos.mpr hd1ne
    simp only [List.length_append, List.length_cons]
    omega
  have hneScTyp : sc ≠ typ := by
    intro heq
    rw [heq, heptyp] at hssc
    simp at hssc
  have h1 : derefPtrList
      ⟨.fixedArr ty (fun i => .ptr typ (fun j => .scalar sc (w i j))),
        [], [], [], some 0⟩ (some [k]) =
      .ok ⟨.ptr typ (fun j => .scalar sc (w 0 j)), [.arrStep],
        [digitsToNat d1], [1], some 0⟩ :=
    @derefPtrList_arrOnly
      ⟨.fixedArr ty (fun i => .ptr typ (fun j => .scalar sc (w i j))),
        [], [], [], some 0⟩ (some [k])
      ⟨.ptr typ (fun j => .scalar sc (w 0 j)), [digitsToNat d1], some 0⟩
      hpty haty (mkDeRefArr_eval hempty hg)
  have h2 : derefContainerList ⟨.ptr typ (fun j => .scalar sc (w 0 j)),
      [.arrStep], [digitsToNat d1], [1], some 0⟩ =
      .ok ⟨.ptr typ (fun j => .scalar sc (w 0 j)), [.arrStep],
        [digitsToNat d1], [1], some 0⟩ :=
    derefContainerList_noVec hvtyp
  have h3 : derefPtrList ⟨.ptr typ (fun j => .scalar sc (w 0 j)),
      [.arrStep], [digitsToNat d1], [1], some 0⟩ (some [k]) =
      .ok ⟨.scalar sc (w 0 0), [.arrStep, .ptrStep],
        [digitsToNat d1, k], [1, 1], some 1⟩ :=
    @derefPtrList_ptrOnly
      ⟨.ptr typ (fun j => .scalar sc (w 0 j)), [.arrStep],
        [digitsToNat d1], [1], some 0⟩ (some [k])
      ⟨.scalar sc (w 0 0), [k], some 1⟩ hptyp
      (mkDeRefPtr_eval (by simp)) hasc
  have h4 : derefContainerList ⟨.scalar sc (w 0 0), [.arrStep, .ptrStep],
      [digitsToNat d1, k], [1, 1], some 1⟩ =
      .ok ⟨.scalar sc (w 0 0), [.arrStep, .ptrStep],
        [digitsToNat d1, k], [1, 1], some 1⟩ :=
    derefContainerList_noVec hvsc
  have h5 : derefPtrList ⟨.scalar sc (w 0 0), [.arrStep, .ptrStep],
      [digitsToNat d1, k], [1, 1], some 1⟩ (some [k]) =
      .ok ⟨.scalar sc (w 0 0), [.arrStep, .ptrStep],
        [digitsToNat d1, k], [1, 1], some 1⟩ :=
    derefPtrList_none hpsc hasc
  have hloop : gdfLoop (f + 3)
      ⟨.fixedArr ty (fun i => .ptr typ (fun j => .scalar sc (w i j))),
        [], [], [], some 0⟩ (some [k]) =
      .ok ⟨.scalar sc (w 0 0), [.arrStep, .ptrStep],
        [digitsToNat d1, k], [1, 1], some 1⟩ := by
    rw [gdfLoop_step h1 h2 hneTyTyp, gdfLoop_step h3 h4 hneScTyp]
    exact gdfLoop_last h5 h4 rfl
  have hgdf : getDerefFuncs (f + 3)
      (.fixedArr ty (fun i => .ptr typ (fun j => .scalar sc (w i j))))
      (some [k]) =
      .ok ⟨[.arrStep, .ptrStep], [1, 1], [digitsToNat d1, k], sc, false⟩ := by
    have hinit : initShapeInd (some [k]) = some 0 := rfl
    simp only [getDerefFuncs, hinit, hloop]
    rfl
  have hfill : ∀ ix ∈ prodIndices ([digitsToNat d1, k] : List Nat),
      ∃ wv, chainApply [StepKind.arrStep, StepKind.ptrStep] [1, 1] ix
        (GVal.fixedArr ty (fun i => .ptr typ (fun j => .scalar sc (w i j)))) =
          some wv ∧
        castScalar wv = .ok (w (ix.getD 0 0) (ix.getD 1 0)) := by
    intro ix hix
    obtain ⟨i, ix1, rfl, hi, hmem1⟩ := mem_prodIndices_cons.mp hix
    obtain ⟨j, ix2, rfl, hj, hmem2⟩ := mem_prodIndices_cons.mp hmem1
    have hnil : ix2 = [] := by
      simpa [prodIndices] using hmem2
    subst hnil
    refine ⟨.scalar sc (w i j), ?_, rfl⟩
    simp [chainApply, applyStep, indexVal]
  obtain ⟨data, htoA, hdata⟩ := toArray_eval
    (g := fun ix => w (ix.getD 0 0) (ix.getD 1 0)) henv hgdf hsc hfill
  refine ⟨⟨[digitsToNat d1, k], sc, data⟩, htoA, rfl, rfl, ?_⟩
  intro i j hi hj
  show data [i, j] = w i j
  rw [hdata [i, j]]
  simp [mem_prod_two.mpr ⟨hi, hj⟩]

/-- C1: for a two-level fixed-size array of a whitelisted scalar with
declared dimensions `(m, n)` (read from the bracket groups of the type
name), `to_array` returns a buffer of shape `(m, n)` whose cell `(i, j)`
is the scalar at logical position `(i, j)`, and the returned buffer is
identical whether a shape hint is supplied or omitted. -/
theorem claim_C1 (fuel : Nat) (env : String → Option GVal) (var : String)
    (ty2 ty1 sc : String) (d1 d2 : List Char) (v : Nat → Nat → Int) (m n : Nat)
    (hf : 3 ≤ fuel) (hsc : sc ∈ typeList)
    (hd1 : ∀ c ∈ d1, c.isDigit = true) (hd1ne : d1 ≠ [])
    (hd2 : ∀ c ∈ d2, c.isDigit = true) (hd2ne : d2 ≠ [])
    (hyty2 : ty2.data =
      (sc.data ++ [' ']) ++ ('[' :: (d1 ++ (']' :: ('[' :: (d2 ++ [']']))))))
    (hyty1 : ty1.data = (sc.data ++ [' ']) ++ ('[' :: (d2 ++ [']'])))
    (hm : m = digitsToNat d1) (hn : n = digitsToNat d2)
    (henv : env var =
      some (.fixedArr ty2 (fun i => .fixedArr ty1 (fun j => .scalar sc (v i j))))) :
    (∀ sh, toArray fuel env var sh = toArray fuel env var none) ∧
    (∃ buf, toArray fuel env var none = .ok buf ∧
      buf.shape = [m, n] ∧ buf.dtype = sc ∧
      ∀ i j, i < m → j < n → buf.data [i, j] = v i j) := by
  subst hm
  subst hn
  obtain ⟨f, rfl⟩ : ∃ f, fuel = f + 3 := ⟨fuel - 3, by omega⟩
  obtain ⟨hpsc, hasc, hvsc, hssc, hscNoLB⟩ := scalarTypeFacts hsc
  have hsNoLB : ∀ c ∈ sc.data ++ [' '], c ≠ '[' := by
    intro c hc
    rcases List.mem_append.mp hc with h | h
    · exact hscNoLB c h
    · simp only [List.mem_cons, List.not_mem_nil, or_false] at h
      subst h
      decide
  have htgr2 : trailingGroupsRev ty2.data.reverse =
      ([d2, d1], ' ' :: sc.data.reverse) := by
    rw [hyty2, tgrTwoGroups _ _ _ hd1 hd2 (by simp)]
    simp
  have hep2 : endsWithStar ty2 = false := by
    unfold endsWithStar
    rw [hyty2, revTwoGroups]
    rfl
  have hpty2 : ptrPattern ty2 = false := by
    simp [ptrPattern, hep2, htgr2]
  have haty2 : arrPattern ty2 = true := by
    simp [arrPattern, htgr2]
  have hempty2 : hasEmptyGroup ty2.data = false := by
    rw [hyty2]
    exact hasEmptyGroupTwo _ d1 d2 hsNoLB hd1 hd1ne hd2 hd2ne
  have hg2 : (trailingGroupsRev ty2.data.reverse).1.reverse = d1 :: [d2] := by
    rw [htgr2]
    simp
  have hvty2 : vecPattern ty2 = false :=
    vecPatternScPrefix hsc
      (r := [' '] ++ ('[' :: (d1 ++ (']' :: ('[' :: (d2 ++ [']']))))))
      (by rw [hyty2]; simp)
  have htgr1 : trailingGroupsRev ty1.data.reverse =
      ([d2], ' ' :: sc.data.reverse) := by
    rw [hyty1, tgrOneGroup _ _ hd2 (by simp)]
    simp
  have hep1 : endsWithStar ty1 = false := by
    unfold endsWithStar
    rw [hyty1, revOneGroup]
    rfl
  have hpty1 : ptrPattern ty1 = false := by
    simp [ptrPattern, hep1, htgr1]
  have haty1 : arrPattern ty1 = true := by
    simp [arrPattern, htgr1]
  have hempty1 : hasEmptyGroup ty1.data = false := by
    rw [hyty1]
    exact hasEmptyGroupOne _ d2 hsNoLB hd2 hd2ne
  have hg1 : (trailingGroupsRev ty1.data.reverse).1.reverse = d2 :: [] := by
    rw [htgr1]
    simp
  have hvty1 : vecPattern ty1 = false :=
    vecPatternScPrefix hsc (r := [' '] ++ ('[' :: (d2 ++ [']'])))
      (by rw [hyty1]; simp)
  have hneTy1Ty2 : ty1 ≠ ty2 := by
    apply strNeOfLen
    rw [hyty1, hyty2]
    have : 0 < d1.length := List.length_pos.mpr hd1ne
    simp only [List.length_append, List.length_cons]
    omega
  have hneScTy1 : sc ≠ ty1 := by
    apply strNeOfLen
    rw [hyty1]
    have : 0 < d2.length := List.length_pos.mpr hd2ne
    simp only [List.length_append, List.length_cons]
    omega
  have hloop : ∀ (sh : Option (List Nat)) (si0 : Option Nat),
      gdfLoop (f + 3)
        ⟨.fixedArr ty2 (fun i => .fixedArr ty1 (fun j => .scalar sc (v i j))),
          [], [], [], si0⟩ sh =
        .ok ⟨.scalar sc (v 0 0), [.arrStep, .arrStep],
          [digitsToNat d1, digitsToNat d2], [1, 1], si0⟩ := by
    intro sh si0
    have h1 : derefPtrList
        ⟨.fixedArr ty2 (fun i => .fixedArr ty1 (fun j => .scalar sc (v i j))),
          [], [], [], si0⟩ sh =
        .ok ⟨.fixedArr ty1 (fun j => .scalar sc (v 0 j)), [.arrStep],
          [digitsToNat d1], [1], si0⟩ :=
      @derefPtrList_arrOnly
        ⟨.fixedArr ty2 (fun i => .fixedArr ty1 (fun j => .scalar sc (v i j))),
          [], [], [], si0⟩ sh
        ⟨.fixedArr ty1 (fun j => .scalar sc (v 0 j)), [digitsToNat d1], si0⟩
        hpty2 haty2 (mkDeRefArr_eval hempty2 hg2)
    have h2 : derefContainerList ⟨.fixedArr ty1 (fun j => .scalar sc (v 0 j)),
        [.arrStep], [digitsToNat d1], [1], si0⟩ =
        .ok ⟨.fixedArr ty1 (fun j => .scalar sc (v 0 j)), [.arrStep],
          [digitsToNat d1], [1], si0⟩ :=
      derefContainerList_noVec hvty1
    have h3 : derefPtrList ⟨.fixedArr ty1 (fun j => .scalar sc (v 0 j)),
        [.arrStep], [digitsToNat d1], [1], si0⟩ sh =
        .ok ⟨.scalar sc (v 0 0), [.arrStep, .arrStep],
          [digitsToNat d1, digitsToNat d2], [1, 1], si0⟩ :=
      @derefPtrList_arrOnly
        ⟨.fixedArr ty1 (fun j => .scalar sc (v 0 j)), [.arrStep],
          [digitsToNat d1], [1], si0⟩ sh
        ⟨.scalar sc (v 0 0), [digitsToNat d2], si0⟩
        hpty1 haty1 (mkDeRefArr_eval hempty1 hg1)
    have h4 : derefContainerList ⟨.scalar sc (v 0 0), [.arrStep, .arrStep],
        [digitsToNat d1, digitsToNat d2], [1, 1], si0⟩ =
        .ok ⟨.scalar sc (v 0 0), [.arrStep, .arrStep],
          [digitsToNat d1, digitsToNat d2], [1, 1], si0⟩ :=
      derefContainerList_noVec hvsc
    have h5 : derefPtrList ⟨.scalar sc (v 0 0), [.arrStep, .arrStep],
        [digitsToNat d1, digitsToNat d2], [1, 1], si0⟩ sh =
        .ok ⟨.scalar sc (v 0 0), [.arrStep, .arrStep],
          [digitsToNat d1, digitsToNat d2], [1, 1], si0⟩ :=
      derefPtrList_none hpsc hasc
    rw [gdfLoop_step h1 h2 hneTy1Ty2, gdfLoop_step h3 h4 hneScTy1]
    exact gdfLoop_last h5 h4 rfl
  have hgdf : ∀ sh, getDerefFuncs (f + 3)
      (.fixedArr ty2 (fun i => .fixedArr ty1 (fun j => .scalar sc (v i j)))) sh =
      .ok ⟨[.arrStep, .arrStep], [1, 1], [digitsToNat d1, digitsToNat d2],
        sc, false⟩ := by
    intro sh
    have hloop' := hloop sh (initShapeInd sh)
    simp only [getDerefFuncs, hloop']
    match sh with
    | none => rfl
    | some [] => rfl
    | some (x :: xs) => rfl
  constructor
  · intro sh
    simp only [toArray, henv, hgdf sh, hgdf none]
  · have hfill : ∀ ix ∈ prodIndices ([digitsToNat d1, digitsToNat d2] : List Nat),
        ∃ wv, chainApply [StepKind.arrStep, StepKind.arrStep] [1, 1] ix
          (GVal.fixedArr ty2 (fun i => .fixedArr ty1 (fun j => .scalar sc (v i j)))) =
            some wv ∧
          castScalar wv = .ok (v (ix.getD 0 0) (ix.getD 1 0)) := by
      intro ix hix
      obtain ⟨i, ix1, rfl, hi, hmem1⟩ := mem_prodIndices_cons.mp hix
      obtain ⟨j, ix2, rfl, hj, hmem2⟩ := mem_prodIndices_cons.mp hmem1
      have hnil : ix2 = [] := by
        simpa [prodIndices] using hmem2
      subst hnil
      refine ⟨.scalar sc (v i j), ?_, rfl⟩
      simp [chainApply, applyStep, indexVal]
    obtain ⟨data, htoA, hdata⟩ := toArray_eval
      (g := fun ix => v (ix.getD 0 0) (ix.getD 1 0)) henv (hgdf none) hsc hfill
    refine ⟨⟨[digitsToNat d1, digitsToNat d2], sc, data⟩, htoA, rfl, rfl, ?_⟩
    intro i j hi hj
    show data [i, j] = v i j
    rw [hdata [i, j]]
    simp [mem_prod_two.mpr ⟨hi, hj⟩]

/-- C7 counterexample: for a concrete `std::vector` of 2 ints and the
non-empty shape hint `(3,)`, the composition succeeds with shape `(2,)` and
the surplus notice is NOT produced — `if shape_ind:` is false because the
cursor is still `0` (no pointer layer claimed anything), so the claim
"a ShapeSurplusNotice is produced whenever shape_hint is non-empty" fails. -/
theorem claim_C7_counterexample :
    getDerefFuncs 2
      (.vec "std::vector<int, std::allocator<int> >"
        (fun _ => .scalar "int" 7) 2) (some [3]) =
      .ok ⟨[.vecStep], [1], [2], "int", false⟩ := by
  rfl

/-- C7 amended: for a sequence container of whitelisted scalars with runtime
length `L`, `to_array` returns a buffer of shape `(L,)` regardless of any
supplied shape hint, and NO ShapeSurplusNotice is produced — with no pointer
layer the cursor stays at 0, which is falsy, so the notice is suppressed
even for a non-empty hint; the composition succeeds. -/
theorem claim_C7 (fuel : Nat) (env : String → Option GVal) (var : String)
    (ty sc : String) (v : Nat → Int) (len : Nat)
    (hf : 2 ≤ fuel) (hsc : sc ∈ typeList)
    (hvty : vecPattern ty = true) (hpty : ptrPattern ty = false)
    (haty : arrPattern ty = false)
    (henv : env var = some (.vec ty (fun i => .scalar sc (v i)) len)) :
    (∀ sh, getDerefFuncs fuel (.vec ty (fun i => .scalar sc (v i)) len) sh =
      .ok ⟨[.vecStep], [1], [len], sc, false⟩) ∧
    (∀ sh, ∃ buf, toArray fuel env var sh = .ok buf ∧
      buf.shape = [len] ∧ buf.dtype = sc ∧
      ∀ i, i < len → buf.data [i] = v i) := by
  obtain ⟨f, rfl⟩ : ∃ f, fuel = f + 2 := ⟨fuel - 2, by omega⟩
  obtain ⟨hpsc, hasc, hvsc, hssc, -⟩ := scalarTypeFacts hsc
  have hne : sc ≠ ty := by
    intro heq
    rw [heq, hvty] at hvsc
    simp at hvsc
  have hloop : ∀ (sh : Option (List Nat)) (si0 : Option Nat),
      gdfLoop (f + 2)
        ⟨.vec ty (fun i => .scalar sc (v i)) len, [], [], [], si0⟩ sh =
        .ok ⟨.scalar sc (v 0), [.vecStep], [len], [1], si0⟩ := by
    intro sh si0
    have h1 : derefPtrList
        ⟨.vec ty (fun i => .scalar sc (v i)) len, [], [], [], si0⟩ sh =
        .ok ⟨.vec ty (fun i => .scalar sc (v i)) len, [], [], [], si0⟩ :=
      derefPtrList_none hpty haty
    have h2 : derefContainerList
        ⟨.vec ty (fun i => .scalar sc (v i)) len, [], [], [], si0⟩ =
        .ok ⟨.scalar sc (v 0), [.vecStep], [len], [1], si0⟩ :=
      @derefContainerList_vec
        ⟨.vec ty (fun i => .scalar sc (v i)) len, [], [], [], si0⟩
        ⟨.scalar sc (v 0), [len], si0⟩ hvty mkDeRefVec_eval
    have h3 : derefPtrList ⟨.scalar sc (v 0), [.vecStep], [len], [1], si0⟩ sh =
        .ok ⟨.scalar sc (v 0), [.vecStep], [len], [1], si0⟩ :=
      derefPtrList_none hpsc hasc
    have h4 : derefContainerList ⟨.scalar sc (v 0), [.vecStep], [len], [1], si0⟩ =
        .ok ⟨.scalar sc (v 0), [.vecStep], [len], [1], si0⟩ :=
      derefContainerList_noVec hvsc
    rw [gdfLoop_step h1 h2 hne]
    exact gdfLoop_last h3 h4 rfl
  have hgdf : ∀ sh, getDerefFuncs (f + 2)
      (.vec ty (fun i => .scalar sc (v i)) len) sh =
      .ok ⟨[.vecStep], [1], [len], sc, false⟩ := by
    intro sh
    have hloop' := hloop sh (initShapeInd sh)
    simp only [getDerefFuncs, hloop']
    match sh with
    | none => rfl
    | some [] => rfl
    | some (x :: xs) => rfl
  refine ⟨hgdf, ?_⟩
  intro sh
  have hfill : ∀ ix ∈ prodIndices ([len] : List Nat),
      ∃ wv, chainApply [StepKind.vecStep] [1] ix
        (GVal.vec ty (fun i => .scalar sc (v i)) len) = some wv ∧
        castScalar wv = .ok (v (ix.headD 0)) := by
    intro ix hix
    obtain ⟨i, ix', rfl, hik, hmem'⟩ := mem_prodIndices_cons.mp hix
    have hnil : ix' = [] := by
      simpa [prodIndices] using hmem'
    subst hnil
    exact ⟨.scalar sc (v i), by simp [chainApply, applyStep, vecElem], rfl⟩
  obtain ⟨data, htoA, hdata⟩ := toArray_eval (g := fun ix => v (ix.headD 0))
    henv (hgdf sh) hsc hfill
  refine ⟨⟨[len], sc, data⟩, htoA, rfl, rfl, ?_⟩
  intro i hik
  show data [i] = v i
  rw [hdata [i]]
  simp [mem_prod_one.mpr hik]

/-- C4: for every completed composition (on a value obeying gdb's type
discipline), the sum of the per-step arities equals the length of the
flattened bounds tuple, and replaying the full step chain from the root on
any index tuple of the Cartesian product of the bounds reaches a value of
the terminal type. -/
theorem claim_C4 (fuel : Nat) (val : GVal) (shape : Option (List Nat))
    (res : CompResult) (k : TySkel) (hk : HasSkel val k)
    (h : getDerefFuncs fuel val shape = .ok res) :
    res.argNo.sum = res.bounds.length ∧
    ∀ ix ∈ prodIndices res.bounds,
      ∃ w, chainApply res.funcs res.argNo ix val = some w ∧
        typeOf w = res.dtype := by
  obtain ⟨-, h2, h3⟩ := getDerefFuncs_inv hk h
  exact ⟨h2, h3⟩

/-- C5: whenever the walk reaches a Pointer layer and the shape hint is
absent, construction aborts with the `ValueError` naming the missing-shape
condition; when all hint entries are already claimed, with the `IndexError`
naming the missing-bound condition; such layer errors abort the driver loop,
and any composition error aborts `to_array` with no output buffer. -/
theorem claim_C5 :
    (∀ (ty : String) (t : Nat → GVal) (si : Option Nat),
      mkDeRefPtr (.ptr ty t) si none =
        .error (.valueError shapeMustBeSpecifiedMsg)) ∧
    (∀ (ty : String) (t : Nat → GVal) (si : Nat) (sh : List Nat),
      sh.length ≤ si →
      mkDeRefPtr (.ptr ty t) (some si) (some sh) =
        .error (.indexError insufficientBoundsMsg)) ∧
    (∀ (fuel : Nat) (st : DS) (shape : Option (List Nat)) (e : GErr),
      ptrPattern (typeOf st.val) = true →
      mkDeRefPtr st.val st.shapeInd shape = .error e →
      gdfLoop (fuel + 1) st shape = .error e) ∧
    (∀ (fuel : Nat) (env : String → Option GVal) (var : String) (val : GVal)
      (shape : Option (List Nat)) (e : GErr), env var = some val →
      getDerefFuncs fuel val shape = .error e →
      toArray fuel env var shape = .error e) := by
  refine ⟨fun ty t si => rfl, ?_, ?_, ?_⟩
  · intro ty t si sh hle
    simp only [mkDeRefPtr, indexVal, getRangeFromShape]
    rw [if_pos (by omega)]
  · intro fuel st shape e hp hmk
    exact gdfLoop_ptr_error hp hmk
  · intro fuel env var val shape e henv h
    exact getDerefFuncs_error_toArray henv h

/-- C6: a FixedArray layer whose type name contains an empty bracketed
dimension group always fails with the `gdb.error` about missing array
dimensions — for every shape cursor (the hint is never consulted), and
`to_array` on such a variable fails for every supplied hint, so the
dimension is never treated as size 0 nor filled from the hint. -/
theorem claim_C6 :
    (∀ (val : GVal) (si : Option Nat), hasEmptyGroup (typeOf val).data = true →
      mkDeRefArr val si = .error (.gdbError missingDimsMsg)) ∧
    (∀ (fuel : Nat) (env : String → Option GVal) (var : String) (val : GVal)
      (sh : Option (List Nat)), 1 ≤ fuel → env var = some val →
      ptrPattern (typeOf val) = false → arrPattern (typeOf val) = true →
      hasEmptyGroup (typeOf val).data = true →
      toArray fuel env var sh = .error (.gdbError missingDimsMsg)) := by
  have hbase : ∀ (val : GVal) (si : Option Nat),
      hasEmptyGroup (typeOf val).data = true →
      mkDeRefArr val si = .error (.gdbError missingDimsMsg) := by
    intro val si h
    simp [mkDeRefArr, h]
  refine ⟨hbase, ?_⟩
  intro fuel env var val sh hf henv hp ha hempty
  obtain ⟨f, rfl⟩ : ∃ f, fuel = f + 1 := ⟨fuel - 1, by omega⟩
  have hloop : gdfLoop (f + 1) ⟨val, [], [], [], initShapeInd sh⟩ sh =
      .error (.gdbError missingDimsMsg) :=
    gdfLoop_arr_error hp ha (hbase val _ hempty)
  exact getDerefFuncs_error_toArray henv (getDerefFuncs_error_of_loop hloop)

/-- C8: when the walk terminates on a terminal type name outside the scalar
whitelist, `to_array` fails with the `KeyError` on that name, before any
buffer is produced — the result is the error alone, never a partial buffer. -/
theorem claim_C8 (fuel : Nat) (env : String → Option GVal) (var : String)
    (val : GVal) (shape : Option (List Nat)) (res : CompResult)
    (henv : env var = some val)
    (hgdf : getDerefFuncs fuel val shape = .ok res)
    (hdt : res.dtype ∉ typeList) :
    toArray fuel env var shape = .error (.keyError res.dtype) := by
  simp [toArray, henv, hgdf, hdt]

/-- C9: calling `to_array` with an empty-sequence shape hint on a pointer
variable leaves the shape cursor uninitialized (only a truthy hint sets it
to 0), passes the pointer layer's presence check (the hint is not absent),
and then fails with Python's `TypeError` (`None + 1`) — an error distinct
from both the missing-shape `ValueError` and the insufficient-bounds
`IndexError`. -/
theorem claim_C9 (fuel : Nat) (env : String → Option GVal) (var : String)
    (ty : String) (t : Nat → GVal)
    (hf : 1 ≤ fuel) (henv : env var = some (.ptr ty t))
    (hp : ptrPattern ty = true) :
    toArray fuel env var (some []) = .error .typeError ∧
    initShapeInd (some []) = none ∧
    mkDeRefPtr (.ptr ty t) none (some []) = .error .typeError ∧
    (∀ msg, GErr.typeError ≠ .valueError msg ∧ GErr.typeError ≠ .indexError msg) := by
  have hmk : mkDeRefPtr (.ptr ty t) none (some []) = .error .typeError := rfl
  obtain ⟨f, rfl⟩ : ∃ f, fuel = f + 1 := ⟨fuel - 1, by omega⟩
  have hloop : gdfLoop (f + 1)
      ⟨.ptr ty t, [], [], [], initShapeInd (some [])⟩ (some []) =
      .error .typeError :=
    gdfLoop_ptr_error hp hmk
  refine ⟨?_, rfl, hmk, fun msg => ⟨by simp, by simp⟩⟩
  exact getDerefFuncs_error_toArray henv (getDerefFuncs_error_of_loop hloop)

/-- C10: constructing any layer dereferencer performs exactly one discovery
access at index 0 regardless of that layer's bound — the post-discovery
value is always the child at index 0; in particular a sequence container of
runtime length 0 still has its index-0 element read, and `to_array` on it
succeeds with shape `(0,)` and an untouched all-zero buffer (no per-cell
writes). -/
theorem claim_C10 :
    (∀ (ty : String) (mem : Nat → GVal) (len : Nat) (si : Option Nat),
      mkDeRefVec (.vec ty mem len) si = .ok ⟨mem 0, [len], si⟩) ∧
    (∀ (ty : String) (t : Nat → GVal) (si : Nat) (sh : List Nat),
      si < sh.length →
      mkDeRefPtr (.ptr ty t) (some si) (some sh) =
        .ok ⟨t 0, [sh.getD si 0], some (si + 1)⟩) ∧
    (∀ (ty : String) (e : Nat → GVal) (si : Option Nat) (g : List Char)
      (gs : List (List Char)), hasEmptyGroup ty.data = false →
      (trailingGroupsRev ty.data.reverse).1.reverse = g :: gs →
      mkDeRefArr (.fixedArr ty e) si = .ok ⟨e 0, [digitsToNat g], si⟩) ∧
    (∀ (fuel : Nat) (env : String → Option GVal) (var : String)
      (ty sc : String) (mem : Nat → GVal) (wv : Int), 2 ≤ fuel →
      sc ∈ typeList → vecPattern ty = true → ptrPattern ty = false →
      arrPattern ty = false → mem 0 = .scalar sc wv →
      env var = some (.vec ty mem 0) →
      toArray fuel env var none = .ok ⟨[0], sc, fun _ => 0⟩) := by
  refine ⟨fun ty mem len si => rfl, fun ty t si sh hlt => mkDeRefPtr_eval hlt,
    fun ty e si g gs h1 h2 => mkDeRefArr_eval h1 h2, ?_⟩
  intro fuel env var ty sc mem wv hf hsc hvty hpty haty hm0 henv
  obtain ⟨f, rfl⟩ : ∃ f, fuel = f + 2 := ⟨fuel - 2, by omega⟩
  obtain ⟨hpsc, hasc, hvsc, hssc, -⟩ := scalarTypeFacts hsc
  have hne : sc ≠ ty := by
    intro heq
    rw [heq, hvty] at hvsc
    simp at hvsc
  have hmk : mkDeRefVec (.vec ty mem 0) (none : Option Nat) =
      .ok ⟨.scalar sc wv, [0], none⟩ := by
    rw [mkDeRefVec_eval, hm0]
  have h1 : derefPtrList ⟨.vec ty mem 0, [], [], [], none⟩ none =
      .ok ⟨.vec ty mem 0, [], [], [], none⟩ :=
    derefPtrList_none hpty haty
  have h2 : derefContainerList ⟨.vec ty mem 0, [], [], [], none⟩ =
      .ok ⟨.scalar sc wv, [.vecStep], [0], [1], none⟩ :=
    @derefContainerList_vec ⟨.vec ty mem 0, [], [], [], none⟩
      ⟨.scalar sc wv, [0], none⟩ hvty hmk
  have h3 : derefPtrList ⟨.scalar sc wv, [.vecStep], [0], [1], none⟩ none =
      .ok ⟨.scalar sc wv, [.vecStep], [0], [1], none⟩ :=
    derefPtrList_none hpsc hasc
  have h4 : derefContainerList ⟨.scalar sc wv, [.vecStep], [0], [1], none⟩ =
      .ok ⟨.scalar sc wv, [.vecStep], [0], [1], none⟩ :=
    derefContainerList_noVec hvsc
  have hloop : gdfLoop (f + 2) ⟨.vec ty mem 0, [], [], [], none⟩ none =
      .ok ⟨.scalar sc wv, [.vecStep], [0], [1], none⟩ := by
    rw [gdfLoop_step h1 h2 hne]
    exact gdfLoop_last h3 h4 rfl
  have hgdf : getDerefFuncs (f + 2) (.vec ty mem 0) none =
      .ok ⟨[.vecStep], [1], [0], sc, false⟩ := by
    simp only [getDerefFuncs, initShapeInd, hloop]
    rfl
  simp only [toArray, henv, hgdf, if_pos hsc]
  rfl

/-! ### Concrete witnesses -/

def c1root : GVal :=
  .fixedArr "float [2][3]"
    (fun i => .fixedArr "float [3]"
      (fun j => .scalar "float" ((i : Int) * 10 + (j : Int))))

theorem claim_C1_witness :
    (∀ sh, toArray 3 (fun _ => some c1root) "mat" sh =
      toArray 3 (fun _ => some c1root) "mat" none) ∧
    (∃ buf, toArray 3 (fun _ => some c1root) "mat" none = .ok buf ∧
      buf.shape = [2, 3] ∧ buf.dtype = "float" ∧
      ∀ i j, i < 2 → j < 3 → buf.data [i, j] = (i : Int) * 10 + (j : Int)) :=
  claim_C1 3 (fun _ => some c1root) "mat" "float [2][3]" "float [3]" "float"
    ['2'] ['3'] (fun i j => (i : Int) * 10 + (j : Int)) 2 3
    (by decide) (by decide) (by decide) (by decide) (by decide) (by decide)
    rfl rfl rfl rfl rfl

def c2root : GVal := .ptr "float *" (fun i => .scalar "float" (i : Int))

theorem claim_C2_witness :
    (∃ buf, toArray 2 (fun _ => some c2root) "p" (some [3]) = .ok buf ∧
      buf.shape = [3] ∧ buf.dtype = "float" ∧
      ∀ i, i < 3 → buf.data [i] = (i : Int)) ∧
    (∀ (tv : Nat → GVal) (si : Nat) (sh : List Nat), si < sh.length →
      mkDeRefPtr (.ptr "float *" tv) (some si) (some sh) =
        .ok ⟨tv 0, [sh.getD si 0], some (si + 1)⟩) :=
  claim_C2 2 (fun _ => some c2root) "p" "float *" "float" (fun i => (i : Int)) 3
    (by decide) (by decide) (by decide) rfl

def c3root : GVal :=
  .fixedArr "float *[4]"
    (fun i => .ptr "float *" (fun j => .scalar "float" ((i : Int) * 10 + (j : Int))))

theorem claim_C3_witness :
    ∃ buf, toArray 3 (fun _ => some c3root) "arr" (some [2]) = .ok buf ∧
      buf.shape = [4, 2] ∧ buf.dtype = "float" ∧
      ∀ i j, i < 4 → j < 2 → buf.data [i, j] = (i : Int) * 10 + (j : Int) :=
  claim_C3 3 (fun _ => some c3root) "arr" "float *[4]" "float *" "float" ['4']
    (fun i j => (i : Int) * 10 + (j : Int)) 2 4
    (by decide) (by decide) (by decide) (by decide) rfl rfl rfl rfl

def c4val : GVal := .fixedArr "int [2]" (fun _ => .scalar "int" 5)

def c4res : CompResult := ⟨[.arrStep], [1], [2], "int", false⟩

theorem claim_C4_witness :
    c4res.argNo.sum = c4res.bounds.length ∧
    ∀ ix ∈ prodIndices c4res.bounds,
      ∃ w, chainApply c4res.funcs c4res.argNo ix c4val = some w ∧
        typeOf w = c4res.dtype :=
  claim_C4 2 c4val none c4res (.arrT "int [2]" (.scalarT "int"))
    (HasSkel.fixedArr "int [2]" (fun _ => .scalar "int" 5) (.scalarT "int")
      (fun _ => HasSkel.scalar "int" 5))
    rfl

theorem claim_C5_witness :
    mkDeRefPtr (.ptr "int *" (fun _ => GVal.scalar "int" 0)) (some 0) none =
      .error (.valueError shapeMustBeSpecifiedMsg) ∧
    mkDeRefPtr (.ptr "int *" (fun _ => GVal.scalar "int" 0)) (some 1) (some [5]) =
      .error (.indexError insufficientBoundsMsg) ∧
    gdfLoop 1 ⟨.ptr "int *" (fun _ => GVal.scalar "int" 0), [], [], [], none⟩ none =
      .error (.valueError shapeMustBeSpecifiedMsg) ∧
    toArray 1 (fun _ => some (.ptr "int *" (fun _ => GVal.scalar "int" 0))) "p" none =
      .error (.valueError shapeMustBeSpecifiedMsg) :=
  ⟨claim_C5.1 "int *" (fun _ => GVal.scalar "int" 0) (some 0),
   claim_C5.2.1 "int *" (fun _ => GVal.scalar "int" 0) 1 [5] (by decide),
   claim_C5.2.2.1 0 ⟨.ptr "int *" (fun _ => GVal.scalar "int" 0), [], [], [], none⟩
     none (.valueError shapeMustBeSpecifiedMsg) (by decide)
     (claim_C5.1 "int *" (fun _ => GVal.scalar "int" 0) none),
   claim_C5.2.2.2 1 (fun _ => some (.ptr "int *" (fun _ => GVal.scalar "int" 0)))
     "p" (.ptr "int *" (fun _ => GVal.scalar "int" 0)) none
     (.valueError shapeMustBeSpecifiedMsg) rfl rfl⟩

def c6val : GVal := .fixedArr "int []" (fun _ => GVal.scalar "int" 0)

theorem claim_C6_witness :
    mkDeRefArr c6val (some 0) = .error (.gdbError missingDimsMsg) ∧
    toArray 1 (fun _ => some c6val) "a" (some [5]) =
      .error (.gdbError missingDimsMsg) :=
  ⟨claim_C6.1 c6val (some 0) (by decide),
   claim_C6.2 1 (fun _ => some c6val) "a" c6val (some [5]) (by decide) rfl
     (by decide) (by decide) (by decide)⟩

def c7root : GVal :=
  .vec "std::vector<float, std::allocator<float> >"
    (fun _ => GVal.scalar "float" 5) 2

theorem claim_C7_witness :
    (∀ sh, getDerefFuncs 2 c7root sh =
      .ok ⟨[.vecStep], [1], [2], "float", false⟩) ∧
    (∀ sh, ∃ buf, toArray 2 (fun _ => some c7root) "v" sh = .ok buf ∧
      buf.shape = [2] ∧ buf.dtype = "float" ∧
      ∀ i, i < 2 → buf.data [i] = 5) :=
  claim_C7 2 (fun _ => some c7root) "v"
    "std::vector<float, std::allocator<float> >" "float" (fun _ => 5) 2
    (by decide) (by decide) (by decide) (by decide) (by decide) rfl

theorem claim_C8_witness :
    toArray 1 (fun _ => some (GVal.scalar "long" 1)) "x" none =
      .error (.keyError "long") :=
  claim_C8 1 (fun _ => some (GVal.scalar "long" 1)) "x" (GVal.scalar "long" 1)
    none ⟨[], [], [], "long", false⟩ rfl rfl (by decide)

theorem claim_C9_witness :
    toArray 1 (fun _ => some (.ptr "int *" (fun _ => GVal.scalar "int" 0)))
      "p" (some []) = .error .typeError ∧
    initShapeInd (some []) = none ∧
    mkDeRefPtr (.ptr "int *" (fun _ => GVal.scalar "int" 0)) none (some []) =
      .error .typeError ∧
    (∀ msg, GErr.typeError ≠ .valueError msg ∧ GErr.typeError ≠ .indexError msg) :=
  claim_C9 1 (fun _ => some (.ptr "int *" (fun _ => GVal.scalar "int" 0))) "p"
    "int *" (fun _ => GVal.scalar "int" 0) (by decide) rfl (by decide)

def c10vec : GVal :=
  .vec "std::vector<int, std::allocator<int> >" (fun _ => GVal.scalar "int" 9) 0

theorem claim_C10_witness :
    mkDeRefVec c10vec (some 0) = .ok ⟨GVal.scalar "int" 9, [0], some 0⟩ ∧
    mkDeRefPtr (.ptr "int *" (fun _ => GVal.scalar "int" 3)) (some 0) (some [7]) =
      .ok ⟨GVal.scalar "int" 3, [7], some 1⟩ ∧
    mkDeRefArr (.fixedArr "int [2]" (fun _ => GVal.scalar "int" 4)) (some 0) =
      .ok ⟨GVal.scalar "int" 4, [2], some 0⟩ ∧
    toArray 2 (fun _ => some c10vec) "v" none = .ok ⟨[0], "int", fun _ => 0⟩ :=
  ⟨claim_C10.1 "std::vector<int, std::allocator<int> >"
     (fun _ => GVal.scalar "int" 9) 0 (some 0),
   claim_C10.2.1 "int *" (fun _ => GVal.scalar "int" 3) 0 [7] (by decide),
   claim_C10.2.2.1 "int [2]" (fun _ => GVal.scalar "int" 4) (some 0) ['2'] []
     (by decide) (by decide),
   claim_C10.2.2.2 2 (fun _ => some c10vec) "v"
     "std::vector<int, std::allocator<int> >" "int"
     (fun _ => GVal.scalar "int" 9) 9 (by decide) (by decide) (by decide)
     (by decide) (by decide) rfl rfl⟩
